import Mathlib

/-!
Verification of shapeup.js (frankban/shapeup)

Shallow embedding of the shapeup library: a JavaScript heap of plain objects
and functions, and the four operations of `src/shapeup.js`:

* `deepFreeze`    (source lines 192-201)
* `checkFrozen` / the `frozen` validator wrapper (source lines 153-184)
* the `shape` property-type validator (source lines 36-58)
* `fromShape`     (source lines 87-124)

JavaScript semantics that matter here and are modelled explicitly:

* objects live on a heap, are compared and shared by reference, and carry a
  `frozen` flag (`Object.freeze` / `Object.isFrozen`);
* a property value is either a data value or an accessor whose read throws;
* `Object.getOwnPropertyNames(v)` on `null`/`undefined` throws a TypeError,
  on other primitives returns only index/length names (strings) or nothing;
* `Object.freeze` and `Object.isFrozen` are the identity / constantly true
  on primitives (ES2015);
* functions are objects whose call behaviour is a map from the `this` value
  and the arguments to a result; `bind` fixes the `this` value (and a second
  `bind` cannot change it again).

Recursion in the source is unbounded (there is no visited set), so every
recursive operation is embedded with explicit fuel; `none` means the fuel ran
out, i.e. the source program does not terminate however large the stack.
-/

namespace Shapeup

/-- JavaScript primitive values (numbers are modelled as integers; nothing in
the library inspects fractional parts). -/
inductive Prim where
  | num (n : Int)
  | str (s : String)
  | bool (b : Bool)
  | null
  | undefined
deriving DecidableEq, Repr

/-- A JavaScript value: a primitive or a reference to a heap object. -/
inductive Val where
  | prim (p : Prim)
  | ref (a : Nat)
deriving DecidableEq, Repr

/-- The errors thrown or returned by the library, kept structured; the exact
message text of the source is recovered by `JsErr.message`. -/
inductive JsErr where
  /-- `shape`: the candidate has own properties outside the declared shape. -/
  | extraneous (propName comp : String) (fields : List String)
  /-- `checkFrozen`: a node at the given dotted path is not frozen. -/
  | notFrozen (propName comp : String)
  /-- e.g. `Object.getOwnPropertyNames(null)`. -/
  | typeError
  /-- `fromShape` called without a shape declaration tag. -/
  | nonShapePropType
  /-- an arbitrary exception raised by user code (a throwing accessor). -/
  | raised (s : String)
deriving DecidableEq, Repr

/-- The message text produced by the source for each error. -/
def JsErr.message : JsErr → String
  | .extraneous p c fs =>
      "invalid property \"" ++ p ++ "\" provided to component \"" ++ c ++
      "\": the provided object includes properties that are not declared " ++
      "in the shape: " ++ String.intercalate ", " fs
  | .notFrozen p c =>
      "the property \"" ++ p ++ "\" provided to component \"" ++ c ++
      "\" is not frozen"
  | .typeError => "TypeError: Cannot convert undefined or null to object"
  | .nonShapePropType => "from shape called with a non-shape property type"
  | .raised s => s

/-- An own property of an object: either a plain data value or an accessor
whose read throws.  A thrown accessor exception is an arbitrary user value;
it surfaces as `JsErr.raised` with the given message (it can never be one of
the structured errors of the library itself). -/
inductive FVal where
  | v (x : Val)
  | getterThrows (msg : String)
deriving DecidableEq, Repr

/-- The call behaviour of a heap object.  `fn code boundThis` is an ordinary
function: `code` maps the effective `this` value and the argument list to the
result, and `boundThis`, when present, is the receiver fixed by `bind`.
`reshapeFn inst` is the capability `fromShape.bind(null, instance)` installed
by `fromShape` for a reshape-slot field. -/
inductive FnKind where
  | notFn
  | fn (code : Val → List Val → Val) (boundThis : Option Val)
  | reshapeFn (inst : Nat)

/-- A heap object: its own properties in insertion order, its frozen flag,
and its call behaviour (`notFn` for plain objects and arrays). -/
structure Obj where
  fields : List (String × FVal) := []
  frozen : Bool := false
  fnKind : FnKind := .notFn

instance : Inhabited Obj := ⟨{}⟩

/-- The heap: a total map from addresses to objects (an address never handed
out by the allocator maps to an unreachable default object). -/
abbrev Heap := Nat → Obj

instance : Inhabited Heap := ⟨fun _ => default⟩

/-- Heap update. -/
def hset (h : Heap) (a : Nat) (o : Obj) : Heap :=
  fun x => if x = a then o else h x

/-- Mutable state threaded through `fromShape`: the heap together with the
next fresh address. -/
abbrev St := Heap × Nat

instance : Inhabited St := ⟨(default, 0)⟩

/-- Whether `typeof v` is object or function kind (i.e. `v` is a reference). -/
def isObjRef : Val → Bool
  | .ref _ => true
  | .prim _ => false

/-- JavaScript truthiness. -/
def truthy : Val → Bool
  | .prim (.num n) => n ≠ 0
  | .prim (.str s) => s ≠ ""
  | .prim (.bool b) => b
  | .prim .null => false
  | .prim .undefined => false
  | .ref _ => true

/-- First binding of a key in a property list. -/
def lookupField : List (String × FVal) → String → Option FVal
  | [], _ => none
  | (k, x) :: rest, k' => if k = k' then some x else lookupField rest k'

/-- Property assignment on a property list: re-assign in place if the key is
present, append otherwise (JavaScript keeps the original insertion order). -/
def setField : List (String × FVal) → String → FVal → List (String × FVal)
  | [], k, x => [(k, x)]
  | (k', y) :: rest, k, x =>
      if k' = k then (k, x) :: rest else (k', y) :: setField rest k x

/-- The property read `v[k]`: throws a TypeError on `null`/`undefined`,
yields `undefined` on other primitives and on absent properties, triggers the
accessor of a throwing property.  (String index properties are never read by
the library, so they are not enumerated here.) -/
def readD (h : Heap) (v : Val) (k : String) : Except JsErr Val :=
  match v with
  | .prim .null => .error .typeError
  | .prim .undefined => .error .typeError
  | .prim _ => .ok (.prim .undefined)
  | .ref a =>
      match lookupField (h a).fields k with
      | none => .ok (.prim .undefined)
      | some (.v x) => .ok x
      | some (.getterThrows msg) => .error (.raised msg)

/-- `Object.getOwnPropertyNames` for the values on which the library calls it
after its truthiness guard (references and non-null primitives): property
names of the object, index/length names of a string, nothing otherwise. -/
def ownNames (h : Heap) (v : Val) : List String :=
  match v with
  | .ref a => ((h a).fields).map Prod.fst
  | .prim (.str s) => ((List.range s.length).map toString) ++ ["length"]
  | .prim _ => []

/-- The `Object.getOwnPropertyNames(obj).forEach(...)` loop shared textually
by `deepFreeze` (shapeup.js lines 193-199): process the own properties in
order with `recurse`, threading the heap.  Reading a throwing accessor
propagates the exception (there is no catch in the source).  Since the
enclosing `obj` is a reference, `typeof obj` is of object or function kind,
so the guard on `prop !== null` and on the type of `obj` (not of `prop`)
reduces to `prop !== null` (the source tests the type of `obj`, not of
`prop`), and the loop recurses into every non-null property value. -/
def freezeLoop (recurse : Heap → Val → Option (Except JsErr (Heap × Val))) :
    Heap → List (String × FVal) → Option (Except JsErr Heap)
  | h, [] => some (.ok h)
  | _, (_, .getterThrows msg) :: _ => some (.error (.raised msg))
  | h, (_, .v p) :: rest =>
      if p = .prim .null then freezeLoop recurse h rest
      else
        match recurse h p with
        | none => none
        | some (.error e) => some (.error e)
        | some (.ok (h2, _)) => freezeLoop recurse h2 rest

/-- The body of `deepFreeze(obj)` (shapeup.js lines 192-201), parameterised
by the recursive call.  `Object.getOwnPropertyNames` throws on
`null`/`undefined`; on the remaining primitives the loop body never recurses
(`typeof obj` is neither object nor function kind) and `Object.freeze` is the
identity, so the call returns its argument with the heap unchanged.  On a
reference the properties are processed by `freezeLoop` and the object is
then frozen (`Object.freeze(obj)`) and returned. -/
def deepFreezeStep
    (recurse : Heap → Val → Option (Except JsErr (Heap × Val)))
    (h : Heap) : Val → Option (Except JsErr (Heap × Val))
  | .prim .null => some (.error .typeError)
  | .prim .undefined => some (.error .typeError)
  | .prim p => some (.ok (h, .prim p))
  | .ref a =>
      match freezeLoop recurse h (h a).fields with
      | none => none
      | some (.error e) => some (.error e)
      | some (.ok h2) =>
          some (.ok (hset h2 a { h2 a with frozen := true }, .ref a))

/-- Shallow embedding of `deepFreeze(obj)` with explicit fuel; `none` means
the fuel ran out (the source recursion is unbounded — it has no visited
set — so `none` for every fuel models divergence). -/
def deepFreeze : Nat → Heap → Val → Option (Except JsErr (Heap × Val))
  | 0 => fun _ _ => none
  | n + 1 => deepFreezeStep (deepFreeze n)

/-- `deepFreeze` terminates on this value (for some amount of fuel the source
recursion returns or throws rather than descending forever). -/
def DeepFreezeTerminates (h : Heap) (v : Val) : Prop :=
  ∃ n, (deepFreeze n h v).isSome

/-- The property loop of `checkFrozen` (shapeup.js lines 161-167),
parameterised by the recursive check.  As in `freezeLoop`, the parent is a
reference so the `typeof obj` guard reduces to `prop !== null`; the path of
each recursive check is the parent path extended with a dot and the
property name, and a thrown error aborts the loop. -/
def frozenLoop
    (recurse : Heap → Val → String → String → Option (Option JsErr))
    (h : Heap) :
    List (String × FVal) → String → String → Option (Option JsErr)
  | [], _, _ => some none
  | (_, .getterThrows msg) :: _, _, _ => some (some (.raised msg))
  | (nm, .v p) :: rest, propName, comp =>
      if p = .prim .null then frozenLoop recurse h rest propName comp
      else
        match recurse h p (propName ++ "." ++ nm) comp with
        | none => none
        | some (some e) => some (some e)
        | some none => frozenLoop recurse h rest propName comp

/-- The body of the inner `checkFrozen(obj, propName, componentName)` of the
`frozen` validator wrapper (shapeup.js lines 154-168), parameterised by the
recursive call.  `Object.isFrozen` is true on every primitive; after this
check the source calls `Object.getOwnPropertyNames(obj)`, which throws a
TypeError on `null`/`undefined` and yields no object-valued properties on
other primitives.  `some (some e)` models a thrown error `e`, `some none` a
normal return. -/
def checkFrozenStep
    (recurse : Heap → Val → String → String → Option (Option JsErr))
    (h : Heap) :
    Val → String → String → Option (Option JsErr)
  | .prim .null, _, _ => some (some .typeError)
  | .prim .undefined, _, _ => some (some .typeError)
  | .prim _, _, _ => some none
  | .ref a, propName, comp =>
      if (h a).frozen = false then some (some (.notFrozen propName comp))
      else frozenLoop recurse h (h a).fields propName comp

/-- Shallow embedding of `checkFrozen` with explicit fuel; `none` means the
fuel ran out (the recursion has no visited set, so `none` for every fuel
models divergence). -/
def checkFrozen :
    Nat → Heap → Val → String → String → Option (Option JsErr)
  | 0 => fun _ _ _ _ => none
  | n + 1 => checkFrozenStep (checkFrozen n)

/-- The deep-frozen check terminates on this value. -/
def CheckFrozenTerminates (h : Heap) (v : Val) (p c : String) : Prop :=
  ∃ n, (checkFrozen n h v p c).isSome

/-- What `fromShape` recovers from a property type through its hidden
`SHAPE` tag: a `Reshape` marker (`reshapeFunc`), a `Declaration` wrapping the
declared field map (built by `shape`), or neither.  The field map keeps the
declaration order of `Object.keys`. -/
inductive FieldTy where
  | reshapeSlot
  | nested (d : List (String × FieldTy))
  | plain
deriving Repr

/-- Allocate a new object at the next fresh address. -/
def allocObj (st : St) (o : Obj) : St × Nat :=
  ((hset st.1 st.2 o, st.2 + 1), st.2)

/-- The assignment `instance[k] = x` where `instance` lives at address `i`. -/
def setFieldAt (st : St) (i : Nat) (k : String) (x : FVal) : St :=
  (hset st.1 i { st.1 i with fields := setField (st.1 i).fields k x }, st.2)

/-- `value.bind(obj)`: the bound function keeps the code and, when the value
was already bound, its original receiver; otherwise the receiver becomes
`obj`.  Binding the reshape capability does not change what it does (its
receiver is irrelevant). -/
def bindFn : FnKind → Val → FnKind
  | .fn code boundThis, recv => .fn code (some (boundThis.getD recv))
  | .reshapeFn i, _ => .reshapeFn i
  | .notFn, _ => .notFn

/-- The `Object.keys(shape).forEach(key => ...)` loop of `fromShape`
(shapeup.js lines 94-118), parameterised by the recursive call used for
nested declarations.  It builds the instance at address `i` from `src`:

* a reshape-slot field receives `fromShape.bind(null, instance)` — a fresh
  function object carrying the instance address; the source is not read;
* otherwise `src[key]` is read (a throwing accessor propagates); an
  `undefined` value skips the field;
* a nested declaration recurses with the nested field map and no options
  (so the nested call deep-freezes its result);
* a callable value (the `checker.toString.call(value)` test of the source)
  is re-bound to `src` into a fresh function object;
* any other value is installed as is, by reference. -/
def shapeLoop
    (recurse : St → Val → FieldTy → Bool → Option (Except JsErr (St × Val))) :
    St → Nat → Val → List (String × FieldTy) → Option (Except JsErr St)
  | st, _, _, [] => some (.ok st)
  | st, i, src, (k, ty) :: rest =>
      match ty with
      | .reshapeSlot =>
          match allocObj st { fnKind := .reshapeFn i } with
          | (st1, b) =>
            shapeLoop recurse (setFieldAt st1 i k (.v (.ref b))) i src rest
      | .nested d2 =>
          match readD st.1 src k with
          | .error e => some (.error e)
          | .ok value =>
              if value = .prim .undefined then shapeLoop recurse st i src rest
              else
                match recurse st value (.nested d2) false with
                | none => none
                | some (.error e) => some (.error e)
                | some (.ok (st2, r)) =>
                    shapeLoop recurse (setFieldAt st2 i k (.v r)) i src rest
      | .plain =>
          match readD st.1 src k with
          | .error e => some (.error e)
          | .ok value =>
              if value = .prim .undefined then shapeLoop recurse st i src rest
              else
                match value with
                | .ref a =>
                    match (st.1 a).fnKind with
                    | .notFn =>
                        shapeLoop recurse (setFieldAt st i k (.v value)) i src
                          rest
                    | fk =>
                        match allocObj st { fnKind := bindFn fk src } with
                        | (st1, b) =>
                          shapeLoop recurse
                            (setFieldAt st1 i k (.v (.ref b))) i src rest
                | _ =>
                    shapeLoop recurse (setFieldAt st i k (.v value)) i src rest

/-- The body of `fromShape(obj, propType, options)` (shapeup.js lines
87-124), parameterised by the recursive call and by the deep-freeze used on
the finished instance.  `src` is the source object, `pt` the property type
(identified by its hidden `SHAPE` tag), and `mutFlag` the truthiness of
`options && options.mutable`.  Without a `Declaration` tag the call throws
the configuration error.  Otherwise a fresh empty `instance` is allocated,
the declared fields are processed in order by `shapeLoop`, and the instance
is returned as is when mutable and deep-frozen otherwise. -/
def fromShapeStep
    (recurse : St → Val → FieldTy → Bool → Option (Except JsErr (St × Val)))
    (df : Heap → Val → Option (Except JsErr (Heap × Val)))
    (st : St) (src : Val) (pt : FieldTy) (mutFlag : Bool) :
    Option (Except JsErr (St × Val)) :=
  match pt with
  | .nested d =>
      match allocObj st {} with
      | (st1, i) =>
        match shapeLoop recurse st1 i src d with
        | none => none
        | some (.error e) => some (.error e)
        | some (.ok st2) =>
            if mutFlag then some (.ok (st2, .ref i))
            else
              match df st2.1 (.ref i) with
              | none => none
              | some (.error e) => some (.error e)
              | some (.ok (h3, r)) => some (.ok ((h3, st2.2), r))
  | _ => some (.error .nonShapePropType)

/-- Shallow embedding of `fromShape` with explicit fuel (the declaration
tree is finite, but the final deep-freeze can diverge on cyclic source
data, so the whole computation is fuelled). -/
def fromShape :
    Nat → St → Val → FieldTy → Bool → Option (Except JsErr (St × Val))
  | 0 => fun _ _ _ _ => none
  | n + 1 => fromShapeStep (fromShape n) (deepFreeze n)

/-- Invoke a function value `f` as `f(args)` with the given default receiver
(`undefined` when called with no explicit receiver); the receiver fixed by
`bind`, when any, wins.  `none` when `f` is not an ordinary function. -/
def callWith (h : Heap) (f : Val) (thisArg : Val) (args : List Val) :
    Option Val :=
  match f with
  | .ref a =>
      match (h a).fnKind with
      | .fn code boundThis => some (code (boundThis.getD thisArg) args)
      | _ => none
  | _ => none

/-- Invoke the reshape capability installed by `fromShape` with a new
property type and no options: `fromShape.bind(null, instance)` applied to
`pt` runs `fromShape(instance, pt)` with `options` defaulting to `null`,
hence with the deep-freeze default. -/
def callReshape (n : Nat) (st : St) (f : Val) (pt : FieldTy) :
    Option (Except JsErr (St × Val)) :=
  match f with
  | .ref b =>
      match (st.1 b).fnKind with
      | .reshapeFn i => fromShape n st (.ref i) pt false
      | _ => none
  | _ => none

/-- The `props` argument of a validator, as the host hands it over. -/
abbrev Props := List (String × Val)

/-- `props[propName]` (`undefined` when absent). -/
def propsGet : Props → String → Val
  | [], _ => .prim .undefined
  | (k, x) :: rest, k' => if k = k' then x else propsGet rest k'

/-- The host validator calling convention
`(props, propName, componentName) -> Error | null`. -/
abbrev Validator := Heap → Props → String → String → Option JsErr

/-- Shallow embedding of the validator built by `shape(obj)` (shapeup.js
lines 36-58).  `wrapped` stands for the external `PropTypes.shape(obj)`
structural check the validator delegates to, and `shapeFields` for
`Object.keys(obj)`.  A falsy candidate passes; a wrapped-check error is
propagated; otherwise every own property name outside the declared field
set is collected and reported. -/
def shape (shapeFields : List String) (wrapped : Validator) : Validator :=
  fun h props propName comp =>
    let propValue := propsGet props propName
    if truthy propValue = false then none
    else
      match wrapped h props propName comp with
      | some err => some err
      | none =>
          let fields :=
            (ownNames h propValue).filter fun f => !(shapeFields.contains f)
          if fields.isEmpty then none
          else some (.extraneous propName comp fields)

/-- Shallow embedding of the validator built by `frozenWrapper(propType)`
(shapeup.js lines 153-184): a falsy candidate passes; otherwise the deep
frozen check runs, a thrown error is caught and returned, and on success the
wrapped validator decides. -/
def frozenValidator (n : Nat) (inner : Validator) (h : Heap) (props : Props)
    (propName comp : String) : Option (Option JsErr) :=
  let propValue := propsGet props propName
  if truthy propValue = false then some none
  else
    match checkFrozen n h propValue propName comp with
    | none => none
    | some (some e) => some (some e)
    | some none => some (inner h props propName comp)

/-! ## Concrete scenarios

Object graphs taken from the test suite of the library (`test.js`) and from
the scenarios of the specification, together with the states produced by running
the embedded operations on them. -/

/-- A heap with no allocated objects. -/
def emptyHeap : Heap := fun _ => default

/-- The recursive object of the test "deeply freezes recursive objects":
`obj = {answer: 42}; obj.recursive = obj` (a self-referential graph). -/
def cyclicHeap : Heap := fun a =>
  if a = 0 then
    { fields := [("answer", .v (.prim (.num 42))),
                 ("recursive", .v (.ref 0))] }
  else default

/-- The same self-referential object, deeply frozen. -/
def cyclicFrozenHeap : Heap := fun a =>
  if a = 0 then
    { fields := [("answer", .v (.prim (.num 42))),
                 ("recursive", .v (.ref 0))], frozen := true }
  else default

/-- The object of the test "ignores non-accessible properties":
`{answer: 42}` plus a `badWolf` accessor that throws an error, message
`bad wolf`. -/
def getterHeap : Heap := fun a =>
  if a = 0 then
    { fields := [("answer", .v (.prim (.num 42))),
                 ("badWolf", .getterThrows "bad wolf")] }
  else default

/-- The candidate of the test "ignores non-accessible properties when
checking immutability": a frozen object whose declared field is frozen but
which also carries the throwing `badWolf` accessor. -/
def getterFrozenHeap : Heap := fun a =>
  if a = 0 then
    { fields := [("field1", .v (.ref 1)),
                 ("badWolf", .getterThrows "bad wolf")], frozen := true }
  else if a = 1 then { frozen := true }
  else default

/-- Source object `{field1: 47}` for the reshape scenario. -/
def reshapeSrcHeap : Heap := fun a =>
  if a = 0 then { fields := [("field1", .v (.prim (.num 47)))] }
  else default

/-- The shape `{field1: ..., reshape: shapeup.reshapeFunc}`. -/
def reshapeDecl : FieldTy :=
  .nested [("field1", .plain), ("reshape", .reshapeSlot)]

/-- The narrower shape `{field1: ...}`. -/
def reshapeDecl2 : FieldTy := .nested [("field1", .plain)]

/-- The state after `o1 = fromShape({field1: 47}, reshapeDecl,
{mutable: true})`; the instance `o1` lives at address 1. -/
def mutableInstSt : St :=
  match fromShape 5 ((reshapeSrcHeap, 1)) (.ref 0) reshapeDecl true with
  | some (.ok (st, _)) => st
  | _ => default

/-- The state after the derived call `o1.reshape(reshapeDecl2)`; the
derived instance lives at address 3. -/
def reshapedSt : St :=
  match callReshape 5 mutableInstSt (.ref 2) reshapeDecl2 with
  | some (.ok (st, _)) => st
  | _ => default

/-- Source `{n: {a: 1}}` for the nested-shape scenario. -/
def nestedSrcHeap : Heap := fun a =>
  if a = 0 then { fields := [("n", .v (.ref 1))] }
  else if a = 1 then { fields := [("a", .v (.prim (.num 1)))] }
  else default

/-- The shape `{n: shape({a: ...})}` with a nested declaration. -/
def nestedDecl : List (String × FieldTy) := [("n", .nested [("a", .plain)])]

/-- The state after `fromShape({n: {a: 1}}, nestedDecl, {mutable: true})`;
the outer instance lives at address 2, the nested one at address 3. -/
def nestedRunSt : St :=
  match fromShape 6 ((nestedSrcHeap, 2)) (.ref 0) (.nested nestedDecl)
      true with
  | some (.ok (st, _)) => st
  | _ => default

/-- A frozen candidate with an undefined-valued own property `a` and a
non-frozen object in property `b`. -/
def undefFieldHeap : Heap := fun a =>
  if a = 0 then
    { fields := [("a", .v (.prim .undefined)), ("b", .v (.ref 1))],
      frozen := true }
  else default

/-- A frozen candidate whose `field1` is a non-frozen object. -/
def notFrozenHeap : Heap := fun a =>
  if a = 0 then { fields := [("field1", .v (.ref 1))], frozen := true }
  else default

/-- Source `{a: o, b: o}` where both fields alias the same plain object at
address 2; only `a` is declared in the shape used with it. -/
def aliasHeap : Heap := fun a =>
  if a = 0 then { fields := [("a", .v (.ref 2)), ("b", .v (.ref 2))] }
  else if a = 2 then {}
  else default

/-- The state after `fromShape({a: o, b: o}, shape({a: ...}))` (default,
deep-freezing); the instance lives at address 3. -/
def aliasRunSt : St :=
  match fromShape 5 ((aliasHeap, 3)) (.ref 0) (.nested [("a", .plain)])
      false with
  | some (.ok (st, _)) => st
  | _ => default

/-- The candidate `{field1: [], field2: "x", field3: "y"}` of the
extraneous-field scenario (the array lives at address 1). -/
def extraneousHeap : Heap := fun a =>
  if a = 0 then
    { fields := [("field1", .v (.ref 1)),
                 ("field2", .v (.prim (.str "x"))),
                 ("field3", .v (.prim (.str "y")))] }
  else default

/-- Source `{field1: 42, field3: false}` for the projection scenario with
shape `{field1, field2}`. -/
def projSrcHeap : Heap := fun a =>
  if a = 0 then
    { fields := [("field1", .v (.prim (.num 42))),
                 ("field3", .v (.prim (.bool false)))] }
  else default

/-- The state after `fromShape({field1: 42, field3: false},
shape({field1, field2}))`; the instance lives at address 1. -/
def projRunSt : St :=
  match fromShape 5 ((projSrcHeap, 1)) (.ref 0)
      (.nested [("field1", .plain), ("field2", .plain)]) false with
  | some (.ok (st, _)) => st
  | _ => default

/-- Source `{fullName: function}` whose method returns its own receiver
(so the result of a call reveals what `this` was bound to). -/
def bindSrcHeap : Heap := fun a =>
  if a = 0 then { fields := [("fullName", .v (.ref 1))] }
  else if a = 1 then { fnKind := .fn (fun thisVal _ => thisVal) none }
  else default

/-- The state after `fromShape({fullName: f}, shape({fullName}))`; the
instance lives at address 2 and the bound copy of `f` at address 3. -/
def bindRunSt : St :=
  match fromShape 5 ((bindSrcHeap, 2)) (.ref 0)
      (.nested [("fullName", .plain)]) false with
  | some (.ok (st, _)) => st
  | _ => default

/-! ## Properties used in the verification statements -/

/-- `h'` agrees with `h` on every object's properties and call behaviour,
and is at least as frozen. -/
def HPres (h h' : Heap) : Prop :=
  ∀ a, (h' a).fields = (h a).fields ∧ (h' a).fnKind = (h a).fnKind ∧
    ((h a).frozen = true → (h' a).frozen = true)

/-- `q` is the dotted path, extending the path `p` of the value `v`, of a
node that is not frozen, where every node traversed on the way to it is
frozen. -/
inductive UnfrozenAt (h : Heap) : Val → String → String → Prop where
  | here (a : Nat) (p : String) (ha : (h a).frozen = false) :
      UnfrozenAt h (.ref a) p p
  | there (a : Nat) (nm : String) (w : Val) (p q : String)
      (hfz : (h a).frozen = true) (hmem : (nm, FVal.v w) ∈ (h a).fields)
      (hrest : UnfrozenAt h w (p ++ "." ++ nm) q) :
      UnfrozenAt h (.ref a) p q

/-- Full preservation of pre-existing objects by a `fromShape` call: the
allocation counter grows, and every object allocated before the call keeps
its properties and call behaviour and can only become more frozen. -/
def StPres (st st' : St) : Prop :=
  st.2 ≤ st'.2 ∧ ∀ a, a < st.2 →
    (st'.1 a).fields = (st.1 a).fields ∧
    (st'.1 a).fnKind = (st.1 a).fnKind ∧
    ((st.1 a).frozen = true → (st'.1 a).frozen = true)

/-- Preservation by the field-installation loop writing the instance at
address `i`: as `StPres`, except that the properties of `i` itself change as
fields are installed. -/
def LoopPres (i : Nat) (st st' : St) : Prop :=
  st.2 ≤ st'.2 ∧ ∀ a, a < st.2 →
    ((st.1 a).frozen = true → (st'.1 a).frozen = true) ∧
    (a ≠ i → (st'.1 a).fields = (st.1 a).fields ∧
      (st'.1 a).fnKind = (st.1 a).fnKind)

/-- The source value refers below the allocation counter and is not the
instance being built (true of every real call, where the instance address
is fresh). -/
def SrcBelow (st : St) (i : Nat) (src : Val) : Prop :=
  ∀ a, src = .ref a → a < st.2 ∧ a ≠ i

/-- Whether the loop installs the declared entry: a reshape slot is always
installed; any other field is installed exactly when the value read from the
source is defined. -/
def installs (h : Heap) (src : Val) : String × FieldTy → Bool :=
  fun kt =>
    match kt.2 with
    | .reshapeSlot => true
    | _ =>
        match readD h src kt.1 with
        | .ok (.prim .undefined) => false
        | _ => true

/-! ## Basic lemmas: heap updates and property lists -/

theorem hset_self (h : Heap) (a : Nat) (o : Obj) : hset h a o a = o := by
  simp [hset]

theorem hset_other (h : Heap) (a x : Nat) (o : Obj) (hx : x ≠ a) :
    hset h a o x = h x := by
  simp [hset, hx]

theorem lookupField_setField_self (fs : List (String × FVal)) (k : String)
    (x : FVal) : lookupField (setField fs k x) k = some x := by
  induction fs with
  | nil => simp [setField, lookupField]
  | cons hd tl ih =>
      obtain ⟨k', y⟩ := hd
      by_cases hk : k' = k
      · simp [setField, hk, lookupField]
      · simp [setField, hk, lookupField, ih]

theorem lookupField_setField_other (fs : List (String × FVal))
    (k k2 : String) (x : FVal) (hne : k ≠ k2) :
    lookupField (setField fs k x) k2 = lookupField fs k2 := by
  induction fs with
  | nil => simp [setField, lookupField, hne]
  | cons hd tl ih =>
      obtain ⟨k', y⟩ := hd
      by_cases hk : k' = k
      · subst hk
        simp [setField, lookupField, hne]
      · simp [setField, hk, lookupField, ih]

theorem setField_eq_append (fs : List (String × FVal)) (k : String)
    (x : FVal) (hk : k ∉ fs.map Prod.fst) :
    setField fs k x = fs ++ [(k, x)] := by
  induction fs with
  | nil => simp [setField]
  | cons hd tl ih =>
      obtain ⟨k', y⟩ := hd
      simp only [List.map_cons, List.mem_cons] at hk
      push_neg at hk
      have hk' : k' ≠ k := fun e => hk.1 e.symm
      simp [setField, hk', ih hk.2]

theorem lookupField_mem (fs : List (String × FVal)) (k : String) (x : FVal)
    (hl : lookupField fs k = some x) : (k, x) ∈ fs := by
  induction fs with
  | nil => simp [lookupField] at hl
  | cons hd tl ih =>
      obtain ⟨k', y⟩ := hd
      by_cases hk : k' = k
      · subst hk
        simp [lookupField] at hl
        simp [hl]
      · simp [lookupField, hk] at hl
        exact List.mem_cons_of_mem _ (ih hl)

/-! ## Heap preservation by `deepFreeze`

`deepFreeze` never changes the properties or the call behaviour of any
object and never clears a frozen flag; it only sets frozen flags. -/

theorem HPres.hrefl (h : Heap) : HPres h h := fun _ => ⟨Eq.refl _, Eq.refl _, id⟩

theorem HPres.hcomp {h1 h2 h3 : Heap} (p : HPres h1 h2) (q : HPres h2 h3) :
    HPres h1 h3 := by
  intro a
  obtain ⟨f1, k1, z1⟩ := p a
  obtain ⟨f2, k2, z2⟩ := q a
  exact ⟨f2.trans f1, k2.trans k1, fun hz => z2 (z1 hz)⟩

theorem HPres.freeze (h : Heap) (a : Nat) :
    HPres h (hset h a { h a with frozen := true }) := by
  intro x
  by_cases hx : x = a
  · subst hx
    simp [hset]
  · simp [hset, hx]

theorem freezeLoop_pres
    (recurse : Heap → Val → Option (Except JsErr (Heap × Val)))
    (hrec : ∀ h v r, recurse h v = some (.ok r) → HPres h r.1) :
    ∀ (l : List (String × FVal)) (h h' : Heap),
      freezeLoop recurse h l = some (.ok h') → HPres h h' := by
  intro l
  induction l with
  | nil =>
      intro h h' e
      simp [freezeLoop] at e
      subst e
      exact HPres.hrefl h
  | cons hd tl ih =>
      intro h h' e
      obtain ⟨nm, fv⟩ := hd
      cases fv with
      | getterThrows msg => simp [freezeLoop] at e
      | v p =>
          by_cases hp : p = .prim .null
          · rw [freezeLoop, if_pos hp] at e
            exact ih h h' e
          · rw [freezeLoop, if_neg hp] at e
            cases hrc : recurse h p with
            | none => rw [hrc] at e; simp at e
            | some res =>
                cases res with
                | error err => rw [hrc] at e; simp at e
                | ok r =>
                    obtain ⟨h2, w⟩ := r
                    rw [hrc] at e
                    exact (hrec h p (h2, w) hrc).hcomp (ih h2 h' e)

theorem deepFreeze_pres :
    ∀ (n : Nat) (h : Heap) (v : Val) (r : Heap × Val),
      deepFreeze n h v = some (.ok r) → HPres h r.1 := by
  intro n
  induction n with
  | zero => intro h v r e; simp [deepFreeze] at e
  | succ n ih =>
      intro h v r e
      cases v with
      | prim p =>
          cases p <;> simp [deepFreeze, deepFreezeStep] at e <;>
            (subst e; exact HPres.hrefl h)
      | ref a =>
          rw [deepFreeze] at e
          simp only [deepFreezeStep] at e
          cases hfl : freezeLoop (deepFreeze n) h (h a).fields with
          | none => rw [hfl] at e; simp at e
          | some res =>
              cases res with
              | error err => rw [hfl] at e; simp at e
              | ok h2 =>
                  rw [hfl] at e
                  simp at e
                  subst e
                  exact (freezeLoop_pres (deepFreeze n) ih _ h h2 hfl).hcomp
                    (HPres.freeze h2 a)

theorem deepFreeze_ok_val (n : Nat) (h : Heap) (v : Val) (r : Heap × Val)
    (e : deepFreeze n h v = some (.ok r)) : r.2 = v := by
  cases n with
  | zero => simp [deepFreeze] at e
  | succ n =>
      cases v with
      | prim p =>
          cases p <;> simp [deepFreeze, deepFreezeStep] at e <;>
            (subst e; rfl)
      | ref a =>
          rw [deepFreeze] at e
          simp only [deepFreezeStep] at e
          cases hfl : freezeLoop (deepFreeze n) h (h a).fields with
          | none => rw [hfl] at e; simp at e
          | some res =>
              cases res with
              | error err => rw [hfl] at e; simp at e
              | ok h2 =>
                  rw [hfl] at e
                  simp at e
                  subst e
                  rfl

theorem deepFreeze_ref_frozen (n : Nat) (h : Heap) (a : Nat) (r : Heap × Val)
    (e : deepFreeze n h (.ref a) = some (.ok r)) : (r.1 a).frozen = true := by
  cases n with
  | zero => simp [deepFreeze] at e
  | succ n =>
      rw [deepFreeze] at e
      simp only [deepFreezeStep] at e
      cases hfl : freezeLoop (deepFreeze n) h (h a).fields with
      | none => rw [hfl] at e; simp at e
      | some res =>
          cases res with
          | error err => rw [hfl] at e; simp at e
          | ok h2 =>
              rw [hfl] at e
              simp at e
              subst e
              simp [hset]

theorem freezeLoop_mem_frozen
    (recurse : Heap → Val → Option (Except JsErr (Heap × Val)))
    (hpres : ∀ h v r, recurse h v = some (.ok r) → HPres h r.1)
    (hroot : ∀ h a r, recurse h (.ref a) = some (.ok r) →
      (r.1 a).frozen = true) :
    ∀ (l : List (String × FVal)) (h h' : Heap),
      freezeLoop recurse h l = some (.ok h') →
      ∀ nm a, (nm, FVal.v (Val.ref a)) ∈ l → (h' a).frozen = true := by
  intro l
  induction l with
  | nil => intro h h' _ nm a hmem; simp at hmem
  | cons hd tl ih =>
      intro h h' e nm a hmem
      obtain ⟨nm', fv'⟩ := hd
      cases fv' with
      | getterThrows msg => simp [freezeLoop] at e
      | v p =>
          rcases List.mem_cons.mp hmem with hhd | htl
          · have hp : p = .ref a := by
              have := congrArg Prod.snd hhd
              simpa using this.symm
            subst hp
            rw [freezeLoop, if_neg (by simp)] at e
            cases hrc : recurse h (.ref a) with
            | none => rw [hrc] at e; simp at e
            | some res =>
                cases res with
                | error err => rw [hrc] at e; simp at e
                | ok r =>
                    obtain ⟨h2, w⟩ := r
                    rw [hrc] at e
                    have hz : (h2 a).frozen = true := hroot h a (h2, w) hrc
                    exact ((freezeLoop_pres recurse hpres tl h2 h' e) a).2.2 hz
          · by_cases hp : p = .prim .null
            · rw [freezeLoop, if_pos hp] at e
              exact ih h h' e nm a htl
            · rw [freezeLoop, if_neg hp] at e
              cases hrc : recurse h p with
              | none => rw [hrc] at e; simp at e
              | some res =>
                  cases res with
                  | error err => rw [hrc] at e; simp at e
                  | ok r =>
                      obtain ⟨h2, w⟩ := r
                      rw [hrc] at e
                      exact ih h2 h' e nm a htl

theorem deepFreeze_field_frozen (n : Nat) (h : Heap) (a0 : Nat)
    (r : Heap × Val) (e : deepFreeze n h (.ref a0) = some (.ok r))
    (nm : String) (a : Nat)
    (hmem : (nm, FVal.v (Val.ref a)) ∈ (h a0).fields) :
    (r.1 a).frozen = true := by
  cases n with
  | zero => simp [deepFreeze] at e
  | succ n =>
      rw [deepFreeze] at e
      simp only [deepFreezeStep] at e
      cases hfl : freezeLoop (deepFreeze n) h (h a0).fields with
      | none => rw [hfl] at e; simp at e
      | some res =>
          cases res with
          | error err => rw [hfl] at e; simp at e
          | ok h2 =>
              rw [hfl] at e
              simp at e
              have hz : (h2 a).frozen = true :=
                freezeLoop_mem_frozen (deepFreeze n) (deepFreeze_pres n)
                  (fun h a r e => deepFreeze_ref_frozen n h a r e)
                  _ h h2 hfl nm a hmem
              subst e
              exact ((HPres.freeze h2 a0) a).2.2 hz

/-! ## Path correctness of the deep-frozen check -/

theorem frozenLoop_path
    (recurse : Heap → Val → String → String → Option (Option JsErr))
    (hrec : ∀ h v p c q c', recurse h v p c = some (some (.notFrozen q c')) →
      c' = c ∧ UnfrozenAt h v p q) :
    ∀ (l : List (String × FVal)) (h : Heap) (p c q c' : String),
      frozenLoop recurse h l p c = some (some (.notFrozen q c')) →
      c' = c ∧
        ∃ nm w, (nm, FVal.v w) ∈ l ∧ UnfrozenAt h w (p ++ "." ++ nm) q := by
  intro l
  induction l with
  | nil => intro h p c q c' e; simp [frozenLoop] at e
  | cons hd tl ih =>
      intro h p c q c' e
      obtain ⟨nm', fv'⟩ := hd
      cases fv' with
      | getterThrows msg => simp [frozenLoop] at e
      | v w =>
          by_cases hw : w = .prim .null
          · rw [frozenLoop, if_pos hw] at e
            obtain ⟨hc, nm, w2, hmem, hp⟩ := ih h p c q c' e
            exact ⟨hc, nm, w2, List.mem_cons_of_mem _ hmem, hp⟩
          · rw [frozenLoop, if_neg hw] at e
            cases hrc : recurse h w (p ++ "." ++ nm') c with
            | none => rw [hrc] at e; simp at e
            | some res =>
                cases res with
                | none =>
                    rw [hrc] at e
                    obtain ⟨hc, nm, w2, hmem, hp⟩ := ih h p c q c' e
                    exact ⟨hc, nm, w2, List.mem_cons_of_mem _ hmem, hp⟩
                | some err =>
                    rw [hrc] at e
                    simp at e
                    subst e
                    obtain ⟨hc, hu⟩ := hrec h w (p ++ "." ++ nm') c q c' hrc
                    exact ⟨hc, nm', w, List.mem_cons_self _ _, hu⟩

theorem checkFrozen_path :
    ∀ (n : Nat) (h : Heap) (v : Val) (p c q c' : String),
      checkFrozen n h v p c = some (some (.notFrozen q c')) →
      c' = c ∧ UnfrozenAt h v p q := by
  intro n
  induction n with
  | zero => intro h v p c q c' e; simp [checkFrozen] at e
  | succ n ih =>
      intro h v p c q c' e
      cases v with
      | prim pr => cases pr <;> simp [checkFrozen, checkFrozenStep] at e
      | ref a =>
          rw [checkFrozen] at e
          simp only [checkFrozenStep] at e
          by_cases hfz : (h a).frozen = false
          · rw [if_pos hfz] at e
            simp at e
            obtain ⟨hq, hc⟩ := e
            subst hq
            subst hc
            exact ⟨Eq.refl _, UnfrozenAt.here a p hfz⟩
          · rw [if_neg hfz] at e
            obtain ⟨hc, nm, w, hmem, hp⟩ :=
              frozenLoop_path (checkFrozen n) ih _ h p c q c' e
            exact ⟨hc, UnfrozenAt.there a nm w p q (by simpa using hfz) hmem hp⟩

/-- The `frozen` wrapper returns the error thrown by the deep-frozen check
(its try/catch converts the throw into a return value for the host). -/
theorem frozenValidator_returns (n : Nat) (inner : Validator) (h : Heap)
    (props : Props) (propName comp : String) (e : JsErr)
    (htr : truthy (propsGet props propName) = true)
    (hck : checkFrozen n h (propsGet props propName) propName comp
      = some (some e)) :
    frozenValidator n inner h props propName comp = some (some e) := by
  simp only [frozenValidator, htr, Bool.true_eq_false, if_false, hck]

/-! ## Heap preservation by `fromShape` -/

theorem LoopPres.lrefl (i : Nat) (st : St) : LoopPres i st st :=
  ⟨Nat.le_refl _, fun _ _ => ⟨id, fun _ => ⟨Eq.refl _, Eq.refl _⟩⟩⟩

theorem LoopPres.lcomp {i : Nat} {st1 st2 st3 : St} (p : LoopPres i st1 st2)
    (q : LoopPres i st2 st3) : LoopPres i st1 st3 := by
  refine ⟨p.1.trans q.1, fun a ha => ?_⟩
  have ha2 : a < st2.2 := Nat.lt_of_lt_of_le ha p.1
  obtain ⟨z1, f1⟩ := p.2 a ha
  obtain ⟨z2, f2⟩ := q.2 a ha2
  exact ⟨fun hz => z2 (z1 hz), fun hne =>
    ⟨((f2 hne).1).trans (f1 hne).1, ((f2 hne).2).trans (f1 hne).2⟩⟩

theorem StPres.toLoop {st st' : St} (i : Nat) (p : StPres st st') :
    LoopPres i st st' := by
  refine ⟨p.1, fun a ha => ?_⟩
  obtain ⟨hf, hk, hz⟩ := p.2 a ha
  exact ⟨hz, fun _ => ⟨hf, hk⟩⟩

theorem StPres.scomp {st1 st2 st3 : St} (p : StPres st1 st2)
    (q : StPres st2 st3) : StPres st1 st3 := by
  refine ⟨p.1.trans q.1, fun a ha => ?_⟩
  have ha2 : a < st2.2 := Nat.lt_of_lt_of_le ha p.1
  obtain ⟨f1, k1, z1⟩ := p.2 a ha
  obtain ⟨f2, k2, z2⟩ := q.2 a ha2
  exact ⟨f2.trans f1, k2.trans k1, fun hz => z2 (z1 hz)⟩

theorem StPres.alloc (st : St) (o : Obj) :
    StPres st ((hset st.1 st.2 o, st.2 + 1)) := by
  refine ⟨Nat.le_succ _, fun a ha => ?_⟩
  have hne : a ≠ st.2 := Nat.ne_of_lt ha
  simp [hset, hne]

theorem LoopPres.set (st : St) (i : Nat) (k : String) (x : FVal) :
    LoopPres i st (setFieldAt st i k x) := by
  refine ⟨Nat.le_refl _, fun a _ => ?_⟩
  by_cases hai : a = i
  · subst hai
    simp [setFieldAt, hset]
  · simp [setFieldAt, hset, hai]

theorem HPres.toSt {h h' : Heap} (p : HPres h h') (x : Nat) :
    StPres ((h, x)) ((h', x)) := by
  refine ⟨Nat.le_refl _, fun a _ => ?_⟩
  obtain ⟨hf, hk, hz⟩ := p a
  exact ⟨hf, hk, hz⟩

theorem shapeLoop_pres
    (recurse : St → Val → FieldTy → Bool → Option (Except JsErr (St × Val)))
    (hrec : ∀ st src pt mf st' v,
      recurse st src pt mf = some (.ok (st', v)) → StPres st st') :
    ∀ (l : List (String × FieldTy)) (st : St) (i : Nat) (src : Val) (st' : St),
      shapeLoop recurse st i src l = some (.ok st') → LoopPres i st st' := by
  intro l
  induction l with
  | nil =>
      intro st i src st' e
      simp [shapeLoop] at e
      subst e
      exact LoopPres.lrefl _ _
  | cons hd tl ih =>
      intro st i src st' e
      obtain ⟨k, ty⟩ := hd
      cases ty with
      | reshapeSlot =>
          simp only [shapeLoop, allocObj] at e
          exact ((StPres.alloc st _).toLoop i).lcomp
            ((LoopPres.set _ i k _).lcomp (ih _ i src st' e))
      | nested d2 =>
          simp only [shapeLoop] at e
          split at e
          · simp at e
          · split at e
            · exact ih st i src st' e
            · split at e
              · simp at e
              · simp at e
              · rename_i value hr hv mres st2 rv hrc
                exact ((hrec st value _ false st2 rv hrc).toLoop i).lcomp
                  ((LoopPres.set st2 i k _).lcomp (ih _ i src st' e))
      | plain =>
          simp only [shapeLoop] at e
          split at e
          · simp at e
          · split at e
            · exact ih st i src st' e
            · split at e
              · split at e
                · exact (LoopPres.set st i k _).lcomp (ih _ i src st' e)
                · simp only [allocObj] at e
                  exact ((StPres.alloc st _).toLoop i).lcomp
                    ((LoopPres.set _ i k _).lcomp (ih _ i src st' e))
              · exact (LoopPres.set st i k _).lcomp (ih _ i src st' e)

theorem fromShape_pres :
    ∀ (n : Nat) (st : St) (src : Val) (pt : FieldTy) (mf : Bool)
      (st' : St) (v : Val),
      fromShape n st src pt mf = some (.ok (st', v)) →
      StPres st st' ∧ v = .ref st.2 := by
  intro n
  induction n with
  | zero => intro st src pt mf st' v e; simp [fromShape] at e
  | succ n ih =>
      intro st src pt mf st' v e
      rw [fromShape] at e
      cases pt with
      | reshapeSlot => simp [fromShapeStep] at e
      | plain => simp [fromShapeStep] at e
      | nested d =>
          simp only [fromShapeStep, allocObj] at e
          split at e
          · simp at e
          · simp at e
          · rename_i st2 hsl
            have lp : LoopPres st.2 ((hset st.1 st.2 {}, st.2 + 1)) st2 :=
              shapeLoop_pres (fromShape n)
                (fun st src pt mf st' v hv => (ih st src pt mf st' v hv).1)
                d _ st.2 src st2 hsl
            have base : StPres st st2 := by
              refine ⟨Nat.le_trans (Nat.le_succ _) lp.1, fun a ha => ?_⟩
              have hne : a ≠ st.2 := Nat.ne_of_lt ha
              have ha1 : a < st.2 + 1 := Nat.lt_succ_of_lt ha
              obtain ⟨z1, f1⟩ := lp.2 a ha1
              obtain ⟨hf, hk⟩ := f1 hne
              refine ⟨?_, ?_, ?_⟩
              · rw [hf]; simp [hset, hne]
              · rw [hk]; simp [hset, hne]
              · intro hz
                apply z1
                simp [hset, hne, hz]
            cases mf with
            | true =>
                simp at e
                obtain ⟨he1, he2⟩ := e
                subst he1
                subst he2
                exact ⟨base, Eq.refl _⟩
            | false =>
                simp only [Bool.false_eq_true, if_false] at e
                split at e
                · simp at e
                · simp at e
                · rename_i h3 rv hdf
                  simp at e
                  obtain ⟨he1, he2⟩ := e
                  have hv : rv = .ref st.2 :=
                    deepFreeze_ok_val n st2.1 _ _ hdf
                  subst he1
                  subst he2
                  exact ⟨base.scomp ((deepFreeze_pres n st2.1 _ _ hdf).toSt
                    st2.2), hv⟩

/-! ## Reading the source is stable while the loop runs -/

theorem setFieldAt_fields_self (st : St) (i : Nat) (k : String) (x : FVal) :
    ((setFieldAt st i k x).1 i).fields = setField (st.1 i).fields k x := by
  simp [setFieldAt, hset]

theorem setFieldAt_at_other (st : St) (i : Nat) (k : String) (x : FVal)
    (a : Nat) (ha : a ≠ i) : (setFieldAt st i k x).1 a = st.1 a := by
  simp [setFieldAt, hset, ha]

theorem readD_congr (h h' : Heap) (v : Val) (k : String)
    (hf : ∀ a, v = .ref a → (h' a).fields = (h a).fields) :
    readD h' v k = readD h v k := by
  cases v with
  | prim p => cases p <;> rfl
  | ref a => simp [readD, hf a (Eq.refl _)]

theorem SrcBelow.mono {st st' : St} {i : Nat} {src : Val}
    (hs : SrcBelow st i src) (hle : st.2 ≤ st'.2) : SrcBelow st' i src :=
  fun a ha => ⟨Nat.lt_of_lt_of_le (hs a ha).1 hle, (hs a ha).2⟩

theorem readD_stable {st st' : St} {i : Nat} {src : Val}
    (lp : LoopPres i st st') (hs : SrcBelow st i src) (k : String) :
    readD st'.1 src k = readD st.1 src k := by
  apply readD_congr
  intro a ha
  obtain ⟨hlt, hne⟩ := hs a ha
  exact ((lp.2 a hlt).2 hne).1

/-- A completed `fromShape` call without `mutable` returns the instance it
allocated, deeply frozen (in particular the instance itself is frozen). -/
theorem fromShape_ref_frozen :
    ∀ (n : Nat) (st : St) (src : Val) (pt : FieldTy) (st' : St) (v : Val),
      fromShape n st src pt false = some (.ok (st', v)) →
      v = .ref st.2 ∧ (st'.1 st.2).frozen = true := by
  intro n st src pt st' v e
  cases n with
  | zero => simp [fromShape] at e
  | succ n =>
      rw [fromShape] at e
      cases pt with
      | reshapeSlot => simp [fromShapeStep] at e
      | plain => simp [fromShapeStep] at e
      | nested d =>
          simp only [fromShapeStep, allocObj] at e
          split at e
          · simp at e
          · simp at e
          · rename_i st2 hsl
            simp only [Bool.false_eq_true, if_false] at e
            split at e
            · simp at e
            · simp at e
            · rename_i h3 rv hdf
              simp at e
              obtain ⟨he1, he2⟩ := e
              have hv : rv = .ref st.2 := deepFreeze_ok_val n st2.1 _ _ hdf
              subst he1
              subst he2
              subst hv
              exact ⟨Eq.refl _, deepFreeze_ref_frozen n st2.1 st.2 _ hdf⟩

/-- One step of the field-installation loop: processing the head entry of a
completed loop yields an intermediate state from which the tail loop also
completes, and the step itself preserves pre-existing objects. -/
theorem shapeLoop_cons_step
    (recurse : St → Val → FieldTy → Bool → Option (Except JsErr (St × Val)))
    (hrec : ∀ st src pt mf st' v,
      recurse st src pt mf = some (.ok (st', v)) → StPres st st')
    (st : St) (i : Nat) (src : Val) (k1 : String) (ty1 : FieldTy)
    (tl : List (String × FieldTy)) (st' : St)
    (e : shapeLoop recurse st i src ((k1, ty1) :: tl) = some (.ok st')) :
    ∃ st2, LoopPres i st st2 ∧
      shapeLoop recurse st2 i src tl = some (.ok st') := by
  cases ty1 with
  | reshapeSlot =>
      simp only [shapeLoop, allocObj] at e
      exact ⟨_, ((StPres.alloc st _).toLoop i).lcomp (LoopPres.set _ i k1 _), e⟩
  | nested d2 =>
      simp only [shapeLoop] at e
      split at e
      · simp at e
      · split at e
        · exact ⟨st, LoopPres.lrefl _ _, e⟩
        · split at e
          · simp at e
          · simp at e
          · rename_i value hr hv mres st2 rv hrc
            exact ⟨_, ((hrec st value _ false st2 rv hrc).toLoop i).lcomp
              (LoopPres.set st2 i k1 _), e⟩
  | plain =>
      simp only [shapeLoop] at e
      split at e
      · simp at e
      · split at e
        · exact ⟨st, LoopPres.lrefl _ _, e⟩
        · split at e
          · split at e
            · exact ⟨_, LoopPres.set st i k1 _, e⟩
            · simp only [allocObj] at e
              exact ⟨_, ((StPres.alloc st _).toLoop i).lcomp
                (LoopPres.set _ i k1 _), e⟩
          · exact ⟨_, LoopPres.set st i k1 _, e⟩

/-- Once a field has been installed on the instance and its key does not
recur in the remaining declared entries, the remaining loop leaves that
binding alone. -/
theorem shapeLoop_keeps
    (recurse : St → Val → FieldTy → Bool → Option (Except JsErr (St × Val)))
    (hrec : ∀ st src pt mf st' v,
      recurse st src pt mf = some (.ok (st', v)) → StPres st st') :
    ∀ (l : List (String × FieldTy)) (st : St) (i : Nat) (src : Val) (st' : St),
      shapeLoop recurse st i src l = some (.ok st') →
      i < st.2 →
      ∀ k, k ∉ l.map Prod.fst →
        lookupField ((st'.1 i).fields) k
          = lookupField ((st.1 i).fields) k := by
  intro l
  induction l with
  | nil =>
      intro st i src st' e _ k _
      simp [shapeLoop] at e
      subst e
      rfl
  | cons hd tl ih =>
      intro st i src st' e hi k hk
      obtain ⟨k1, ty1⟩ := hd
      simp only [List.map_cons, List.mem_cons] at hk
      push_neg at hk
      obtain ⟨hk1, hktl⟩ := hk
      have hne1 : k1 ≠ k := fun hx => hk1 hx.symm
      have hii : i ≠ st.2 := Nat.ne_of_lt hi
      cases ty1 with
      | reshapeSlot =>
          simp only [shapeLoop, allocObj] at e
          rw [ih _ i src st' e (Nat.lt_succ_of_lt hi) k hktl]
          rw [setFieldAt_fields_self, lookupField_setField_other _ _ _ _ hne1]
          simp [hset, hii]
      | nested d2 =>
          simp only [shapeLoop] at e
          split at e
          · simp at e
          · split at e
            · rw [ih st i src st' e hi k hktl]
            · split at e
              · simp at e
              · simp at e
              · rename_i value hr hv mres st2 rv hrc
                have hsp : StPres st st2 := hrec st value _ false st2 rv hrc
                rw [ih _ i src st' e
                  (Nat.lt_of_lt_of_le hi hsp.1) k hktl]
                rw [setFieldAt_fields_self,
                  lookupField_setField_other _ _ _ _ hne1]
                rw [(hsp.2 i hi).1]
      | plain =>
          simp only [shapeLoop] at e
          split at e
          · simp at e
          · split at e
            · rw [ih st i src st' e hi k hktl]
            · split at e
              · split at e
                · rw [ih _ i src st' e hi k hktl]
                  rw [setFieldAt_fields_self,
                    lookupField_setField_other _ _ _ _ hne1]
                · simp only [allocObj] at e
                  rw [ih _ i src st' e (Nat.lt_succ_of_lt hi) k hktl]
                  rw [setFieldAt_fields_self,
                    lookupField_setField_other _ _ _ _ hne1]
                  simp [hset, hii]
              · rw [ih _ i src st' e hi k hktl]
                rw [setFieldAt_fields_self,
                  lookupField_setField_other _ _ _ _ hne1]

/-! ## What the loop installs for each kind of declared field -/

theorem fromShape_next :
    ∀ (n : Nat) (st : St) (src : Val) (pt : FieldTy) (mf : Bool)
      (st' : St) (v : Val),
      fromShape n st src pt mf = some (.ok (st', v)) → st.2 < st'.2 := by
  intro n st src pt mf st' v e
  cases n with
  | zero => simp [fromShape] at e
  | succ n =>
      rw [fromShape] at e
      cases pt with
      | reshapeSlot => simp [fromShapeStep] at e
      | plain => simp [fromShapeStep] at e
      | nested d =>
          simp only [fromShapeStep, allocObj] at e
          split at e
          · simp at e
          · simp at e
          · rename_i st2 hsl
            have lp : LoopPres st.2 ((hset st.1 st.2 {}, st.2 + 1)) st2 :=
              shapeLoop_pres (fromShape n)
                (fun st src pt mf st' v hv =>
                  (fromShape_pres n st src pt mf st' v hv).1)
                d _ st.2 src st2 hsl
            have hlt : st.2 < st2.2 := Nat.lt_of_lt_of_le (Nat.lt_succ_self _)
              lp.1
            cases mf with
            | true =>
                simp at e
                obtain ⟨he1, _⟩ := e
                subst he1
                exact hlt
            | false =>
                simp only [Bool.false_eq_true, if_false] at e
                split at e
                · simp at e
                · simp at e
                · rename_i h3 rv hdf
                  simp at e
                  obtain ⟨he1, _⟩ := e
                  subst he1
                  exact hlt

theorem shapeLoop_install_reshape
    (recurse : St → Val → FieldTy → Bool → Option (Except JsErr (St × Val)))
    (hrec : ∀ st src pt mf st' v,
      recurse st src pt mf = some (.ok (st', v)) → StPres st st') :
    ∀ (l : List (String × FieldTy)) (st : St) (i : Nat) (src : Val) (st' : St),
      shapeLoop recurse st i src l = some (.ok st') →
      i < st.2 →
      ∀ k, (k, FieldTy.reshapeSlot) ∈ l → (l.map Prod.fst).Nodup →
      ∃ b, lookupField ((st'.1 i).fields) k = some (.v (.ref b)) ∧
        (st'.1 b).fnKind = .reshapeFn i := by
  intro l
  induction l with
  | nil => intro st i src st' _ _ k hmem _; simp at hmem
  | cons hd tl ih =>
      intro st i src st' e hi k hmem hnd
      obtain ⟨k1, ty1⟩ := hd
      simp only [List.map_cons, List.nodup_cons] at hnd
      obtain ⟨hk1n, hndtl⟩ := hnd
      rcases List.mem_cons.mp hmem with hhd | htl
      · injection hhd with hk1 hty1
        subst hk1
        subst hty1
        simp only [shapeLoop, allocObj] at e
        have hii : i ≠ st.2 := Nat.ne_of_lt hi
        refine ⟨st.2, ?_, ?_⟩
        · rw [shapeLoop_keeps recurse hrec tl _ i src st' e
            (Nat.lt_succ_of_lt hi) k hk1n]
          rw [setFieldAt_fields_self,
            lookupField_setField_self]
        · have lp := shapeLoop_pres recurse hrec tl _ i src st' e
          have hb2 : st.2 < (setFieldAt
              ((hset st.1 st.2 { fnKind := FnKind.reshapeFn i }, st.2 + 1))
              i k (FVal.v (Val.ref st.2))).2 := Nat.lt_succ_self _
          have := ((lp.2 st.2 hb2).2 (fun hc => hii hc.symm)).2
          rw [this, setFieldAt_at_other _ _ _ _ _ (fun hc => hii hc.symm)]
          simp [hset]
      · obtain ⟨st2, lp, e2⟩ := shapeLoop_cons_step recurse hrec st i src k1
          ty1 tl st' e
        exact ih st2 i src st' e2 (Nat.lt_of_lt_of_le hi lp.1) k htl hndtl

theorem shapeLoop_install_plain
    (recurse : St → Val → FieldTy → Bool → Option (Except JsErr (St × Val)))
    (hrec : ∀ st src pt mf st' v,
      recurse st src pt mf = some (.ok (st', v)) → StPres st st') :
    ∀ (l : List (String × FieldTy)) (st : St) (i : Nat) (src : Val) (st' : St),
      shapeLoop recurse st i src l = some (.ok st') →
      i < st.2 → SrcBelow st i src →
      ∀ k w, (k, FieldTy.plain) ∈ l → (l.map Prod.fst).Nodup →
      readD st.1 src k = .ok w → w ≠ .prim .undefined →
      (∀ a, w = .ref a → a < st.2 ∧ a ≠ i ∧ (st.1 a).fnKind = .notFn) →
      lookupField ((st'.1 i).fields) k = some (.v w) := by
  intro l
  induction l with
  | nil => intro st i src st' _ _ _ k w hmem _ _ _ _; simp at hmem
  | cons hd tl ih =>
      intro st i src st' e hi hsrc k w hmem hnd hre hw hwa
      obtain ⟨k1, ty1⟩ := hd
      simp only [List.map_cons, List.nodup_cons] at hnd
      obtain ⟨hk1n, hndtl⟩ := hnd
      rcases List.mem_cons.mp hmem with hhd | htl
      · injection hhd with hk1 hty1
        subst hk1
        subst hty1
        simp only [shapeLoop] at e
        split at e
        · rename_i err heq
          rw [hre] at heq
          simp at heq
        · rename_i value heq
          rw [hre] at heq
          injection heq with hv
          subst hv
          rw [if_neg hw] at e
          split at e
          · rename_i a2
            obtain ⟨halt, hani, hafk⟩ := hwa a2 (Eq.refl _)
            split at e
            · rw [shapeLoop_keeps recurse hrec tl _ i src st' e hi k hk1n]
              rw [setFieldAt_fields_self, lookupField_setField_self]
            · rename_i hnot
              exact absurd hafk hnot
          · rw [shapeLoop_keeps recurse hrec tl _ i src st' e hi k hk1n]
            rw [setFieldAt_fields_self, lookupField_setField_self]
      · obtain ⟨st2, lp, e2⟩ := shapeLoop_cons_step recurse hrec st i src k1
          ty1 tl st' e
        refine ih st2 i src st' e2 (Nat.lt_of_lt_of_le hi lp.1)
          (hsrc.mono lp.1) k w htl hndtl ?_ hw ?_
        · rw [readD_stable lp hsrc k]
          exact hre
        · intro a ha
          obtain ⟨halt, hani, hafk⟩ := hwa a ha
          refine ⟨Nat.lt_of_lt_of_le halt lp.1, hani, ?_⟩
          rw [((lp.2 a halt).2 hani).2]
          exact hafk

theorem shapeLoop_install_bound
    (recurse : St → Val → FieldTy → Bool → Option (Except JsErr (St × Val)))
    (hrec : ∀ st src pt mf st' v,
      recurse st src pt mf = some (.ok (st', v)) → StPres st st') :
    ∀ (l : List (String × FieldTy)) (st : St) (i : Nat) (src : Val) (st' : St),
      shapeLoop recurse st i src l = some (.ok st') →
      i < st.2 → SrcBelow st i src →
      ∀ k ma code bt, (k, FieldTy.plain) ∈ l → (l.map Prod.fst).Nodup →
      readD st.1 src k = .ok (.ref ma) → ma < st.2 → ma ≠ i →
      (st.1 ma).fnKind = .fn code bt →
      ∃ b, lookupField ((st'.1 i).fields) k = some (.v (.ref b)) ∧
        (st'.1 b).fnKind = .fn code (some (bt.getD src)) := by
  intro l
  induction l with
  | nil => intro st i src st' _ _ _ k ma code bt hmem _ _ _ _ _; simp at hmem
  | cons hd tl ih =>
      intro st i src st' e hi hsrc k ma code bt hmem hnd hre hmalt hmani hmafk
      obtain ⟨k1, ty1⟩ := hd
      simp only [List.map_cons, List.nodup_cons] at hnd
      obtain ⟨hk1n, hndtl⟩ := hnd
      rcases List.mem_cons.mp hmem with hhd | htl
      · injection hhd with hk1 hty1
        subst hk1
        subst hty1
        simp only [shapeLoop] at e
        split at e
        · rename_i err heq
          rw [hre] at heq
          simp at heq
        · rename_i value heq
          rw [hre] at heq
          injection heq with hv
          subst hv
          rw [if_neg (by simp)] at e
          split at e
          · rename_i heq2
            injection heq2 with ha2
            subst ha2
            split at e
            · rename_i hfk
              rw [hmafk] at hfk
              simp at hfk
            · rw [hmafk] at e
              simp only [bindFn, allocObj] at e
              have hii : i ≠ st.2 := Nat.ne_of_lt hi
              refine ⟨st.2, ?_, ?_⟩
              · rw [shapeLoop_keeps recurse hrec tl _ i src st' e
                  (Nat.lt_succ_of_lt hi) k hk1n]
                rw [setFieldAt_fields_self, lookupField_setField_self]
              · have lp := shapeLoop_pres recurse hrec tl _ i src st' e
                have hb2 : st.2 < (setFieldAt
                    ((hset st.1 st.2
                      { fnKind := FnKind.fn code (some (bt.getD src)) },
                        st.2 + 1))
                    i k (FVal.v (Val.ref st.2))).2 := Nat.lt_succ_self _
                have hkk := ((lp.2 st.2 hb2).2 (fun hc => hii hc.symm)).2
                rw [hkk,
                  setFieldAt_at_other _ _ _ _ _ (fun hc => hii hc.symm)]
                simp [hset]
          · rename_i hnot
            exact absurd (Eq.refl (Val.ref ma)) (hnot ma)
      · obtain ⟨st2, lp, e2⟩ := shapeLoop_cons_step recurse hrec st i src k1
          ty1 tl st' e
        refine ih st2 i src st' e2 (Nat.lt_of_lt_of_le hi lp.1)
          (hsrc.mono lp.1) k ma code bt htl hndtl ?_
          (Nat.lt_of_lt_of_le hmalt lp.1) hmani ?_
        · rw [readD_stable lp hsrc k]
          exact hre
        · rw [((lp.2 ma hmalt).2 hmani).2]
          exact hmafk

theorem shapeLoop_install_nested
    (recurse : St → Val → FieldTy → Bool → Option (Except JsErr (St × Val)))
    (hrec : ∀ st src pt mf st' v,
      recurse st src pt mf = some (.ok (st', v)) → StPres st st')
    (hrecF : ∀ st src d2 st' v,
      recurse st src (.nested d2) false = some (.ok (st', v)) →
      v = .ref st.2 ∧ (st'.1 st.2).frozen = true ∧ st.2 < st'.2) :
    ∀ (l : List (String × FieldTy)) (st : St) (i : Nat) (src : Val) (st' : St),
      shapeLoop recurse st i src l = some (.ok st') →
      i < st.2 → SrcBelow st i src →
      ∀ k d2 w, (k, FieldTy.nested d2) ∈ l → (l.map Prod.fst).Nodup →
      readD st.1 src k = .ok w → w ≠ .prim .undefined →
      ∃ j, lookupField ((st'.1 i).fields) k = some (.v (.ref j)) ∧
        (st'.1 j).frozen = true := by
  intro l
  induction l with
  | nil => intro st i src st' _ _ _ k d2 w hmem _ _ _; simp at hmem
  | cons hd tl ih =>
      intro st i src st' e hi hsrc k d2 w hmem hnd hre hw
      obtain ⟨k1, ty1⟩ := hd
      simp only [List.map_cons, List.nodup_cons] at hnd
      obtain ⟨hk1n, hndtl⟩ := hnd
      rcases List.mem_cons.mp hmem with hhd | htl
      · injection hhd with hk1 hty1
        subst hk1
        subst hty1
        simp only [shapeLoop] at e
        split at e
        · rename_i err heq
          rw [hre] at heq
          simp at heq
        · rename_i value heq
          rw [hre] at heq
          injection heq with hv
          subst hv
          rw [if_neg hw] at e
          split at e
          · simp at e
          · simp at e
          · rename_i mres st2 rv hrc
            obtain ⟨hrv, hfz, hgrow⟩ := hrecF st w d2 st2 rv hrc
            subst hrv
            refine ⟨st.2, ?_, ?_⟩
            · rw [shapeLoop_keeps recurse hrec tl _ i src st' e
                (Nat.lt_of_lt_of_le hi (hrec st w _ false st2 _ hrc).1) k hk1n]
              rw [setFieldAt_fields_self, lookupField_setField_self]
            · have lp := shapeLoop_pres recurse hrec tl _ i src st' e
              have hj2 : st.2 < (setFieldAt st2 i k
                  (FVal.v (Val.ref st.2))).2 := hgrow
              refine (lp.2 st.2 hj2).1 ?_
              have hji : st.2 ≠ i := fun hc => (Nat.ne_of_lt hi) hc.symm
              rw [setFieldAt_at_other _ _ _ _ _ hji]
              exact hfz
      · obtain ⟨st2, lp, e2⟩ := shapeLoop_cons_step recurse hrec st i src k1
          ty1 tl st' e
        refine ih st2 i src st' e2 (Nat.lt_of_lt_of_le hi lp.1)
          (hsrc.mono lp.1) k d2 w htl hndtl ?_ hw
        rw [readD_stable lp hsrc k]
        exact hre

/-! ## Which declared fields end up on the instance -/

theorem installs_of_defined (h : Heap) (src : Val) (k : String) (ty : FieldTy)
    (w : Val) (hre : readD h src k = .ok w) (hw : w ≠ .prim .undefined) :
    installs h src (k, ty) = true := by
  cases ty with
  | reshapeSlot => rfl
  | nested d2 =>
      simp only [installs, hre]
      cases w with
      | ref a => rfl
      | prim p => cases p <;> first | rfl | exact absurd (Eq.refl _) hw
  | plain =>
      simp only [installs, hre]
      cases w with
      | ref a => rfl
      | prim p => cases p <;> first | rfl | exact absurd (Eq.refl _) hw

theorem installs_stable {st st' : St} {i : Nat} {src : Val}
    (lp : LoopPres i st st') (hsrc : SrcBelow st i src)
    (kt : String × FieldTy) :
    installs st'.1 src kt = installs st.1 src kt := by
  unfold installs
  rw [readD_stable lp hsrc kt.1]

theorem shapeLoop_keys_aux
    (recurse : St → Val → FieldTy → Bool → Option (Except JsErr (St × Val)))
    (tl : List (String × FieldTy))
    (ihtl : ∀ (st : St) (i : Nat) (src : Val) (st' : St),
      shapeLoop recurse st i src tl = some (.ok st') →
      i < st.2 → SrcBelow st i src →
      (((st.1 i).fields.map Prod.fst) ++ tl.map Prod.fst).Nodup →
      ((st'.1 i).fields.map Prod.fst)
        = ((st.1 i).fields.map Prod.fst)
          ++ ((tl.filter (installs st.1 src)).map Prod.fst))
    (st st2 : St) (i : Nat) (src : Val) (st' : St) (k1 : String) (x : FVal)
    (lp : LoopPres i st st2)
    (hf2 : (st2.1 i).fields = (st.1 i).fields ++ [(k1, x)])
    (e2 : shapeLoop recurse st2 i src tl = some (.ok st'))
    (hi : i < st.2) (hsrc : SrcBelow st i src)
    (hndK : (((st.1 i).fields.map Prod.fst)).Nodup)
    (hk1K : k1 ∉ (st.1 i).fields.map Prod.fst)
    (hk1R : k1 ∉ tl.map Prod.fst)
    (hndR : (tl.map Prod.fst).Nodup)
    (hdisj : ∀ a ∈ (st.1 i).fields.map Prod.fst,
      a ∈ tl.map Prod.fst → False) :
    ((st'.1 i).fields.map Prod.fst)
      = ((st.1 i).fields.map Prod.fst)
        ++ k1 :: ((tl.filter (installs st.1 src)).map Prod.fst) := by
  have hi2 : i < st2.2 := Nat.lt_of_lt_of_le hi lp.1
  have hnd2 : (((st2.1 i).fields.map Prod.fst) ++ tl.map Prod.fst).Nodup := by
    rw [hf2]
    simp only [List.map_append, List.map_cons, List.map_nil,
      List.append_assoc, List.singleton_append]
    refine List.nodup_append.mpr ⟨hndK, ?_, ?_⟩
    · exact List.nodup_cons.mpr ⟨hk1R, hndR⟩
    · intro a haK haCR
      rcases List.mem_cons.mp haCR with h1 | h2
      · exact hk1K (h1 ▸ haK)
      · exact hdisj a haK h2
  have hkeys := ihtl st2 i src st' e2 hi2 (hsrc.mono lp.1) hnd2
  have hfeq : tl.filter (installs st2.1 src)
      = tl.filter (installs st.1 src) :=
    List.filter_congr (fun kt _ => installs_stable lp hsrc kt)
  rw [hkeys, hfeq, hf2]
  simp [List.map_append, List.append_assoc]

theorem shapeLoop_keys
    (recurse : St → Val → FieldTy → Bool → Option (Except JsErr (St × Val)))
    (hrec : ∀ st src pt mf st' v,
      recurse st src pt mf = some (.ok (st', v)) → StPres st st') :
    ∀ (l : List (String × FieldTy)) (st : St) (i : Nat) (src : Val) (st' : St),
      shapeLoop recurse st i src l = some (.ok st') →
      i < st.2 → SrcBelow st i src →
      (((st.1 i).fields.map Prod.fst) ++ l.map Prod.fst).Nodup →
      ((st'.1 i).fields.map Prod.fst)
        = ((st.1 i).fields.map Prod.fst)
          ++ ((l.filter (installs st.1 src)).map Prod.fst) := by
  intro l
  induction l with
  | nil =>
      intro st i src st' e _ _ _
      simp [shapeLoop] at e
      subst e
      simp
  | cons hd tl ih =>
      intro st i src st' e hi hsrc hnd
      obtain ⟨k1, ty1⟩ := hd
      simp only [List.map_cons] at hnd
      rw [List.nodup_append] at hnd
      obtain ⟨hndK, hndC, hdisj⟩ := hnd
      have hk1K : k1 ∉ (st.1 i).fields.map Prod.fst := fun hx =>
        hdisj hx (List.mem_cons_self _ _)
      obtain ⟨hk1R, hndR⟩ := List.nodup_cons.mp hndC
      have hdisj' : ∀ a ∈ (st.1 i).fields.map Prod.fst,
          a ∈ tl.map Prod.fst → False := fun a haK haR =>
        hdisj haK (List.mem_cons_of_mem _ haR)
      have hii : i ≠ st.2 := Nat.ne_of_lt hi
      cases ty1 with
      | reshapeSlot =>
          simp only [shapeLoop, allocObj] at e
          have hf2 : ((setFieldAt
              ((hset st.1 st.2 { fnKind := FnKind.reshapeFn i }, st.2 + 1))
              i k1 (FVal.v (Val.ref st.2))).1 i).fields
              = (st.1 i).fields ++ [(k1, FVal.v (Val.ref st.2))] := by
            rw [setFieldAt_fields_self]
            show setField ((hset st.1 st.2 _) i).fields k1 _ = _
            rw [hset_other _ _ _ _ hii]
            exact setField_eq_append _ _ _ hk1K
          have hin : installs st.1 src (k1, FieldTy.reshapeSlot) = true := rfl
          simp only [List.filter_cons, hin, if_true, List.map_cons]
          exact shapeLoop_keys_aux recurse tl ih _ _ i src st' k1 _
            (((StPres.alloc st _).toLoop i).lcomp (LoopPres.set _ i k1 _))
            hf2 e hi hsrc hndK hk1K hk1R hndR hdisj'
      | nested d2 =>
          simp only [shapeLoop] at e
          split at e
          · simp at e
          · rename_i value hre
            by_cases hv : value = .prim .undefined
            · rw [if_pos hv] at e
              subst hv
              have hin : installs st.1 src (k1, FieldTy.nested d2)
                  = false := by
                simp [installs, hre]
              simp only [List.filter_cons, hin, Bool.false_eq_true, if_false]
              rw [ih st i src st' e hi hsrc (List.nodup_append.mpr
                ⟨hndK, hndR, fun a haK haR => hdisj' a haK haR⟩)]
            · rw [if_neg hv] at e
              split at e
              · simp at e
              · simp at e
              · rename_i mres st2 rv hrc
                have hsp : StPres st st2 := hrec st value _ false st2 rv hrc
                have hf2 : ((setFieldAt st2 i k1 (FVal.v rv)).1 i).fields
                    = (st.1 i).fields ++ [(k1, FVal.v rv)] := by
                  rw [setFieldAt_fields_self, (hsp.2 i hi).1]
                  exact setField_eq_append _ _ _ hk1K
                have hin : installs st.1 src (k1, FieldTy.nested d2) = true :=
                  installs_of_defined st.1 src k1 _ value hre hv
                simp only [List.filter_cons, hin, if_true, List.map_cons]
                exact shapeLoop_keys_aux recurse tl ih _ _ i src st' k1 _
                  ((hsp.toLoop i).lcomp (LoopPres.set st2 i k1 _))
                  hf2 e hi hsrc hndK hk1K hk1R hndR hdisj'
      | plain =>
          simp only [shapeLoop] at e
          split at e
          · simp at e
          · rename_i value hre
            by_cases hv : value = .prim .undefined
            · rw [if_pos hv] at e
              subst hv
              have hin : installs st.1 src (k1, FieldTy.plain) = false := by
                simp [installs, hre]
              simp only [List.filter_cons, hin, Bool.false_eq_true, if_false]
              rw [ih st i src st' e hi hsrc (List.nodup_append.mpr
                ⟨hndK, hndR, fun a haK haR => hdisj' a haK haR⟩)]
            · rw [if_neg hv] at e
              have hin : installs st.1 src (k1, FieldTy.plain) = true :=
                installs_of_defined st.1 src k1 _ value hre hv
              simp only [List.filter_cons, hin, if_true, List.map_cons]
              split at e
              · rename_i a2
                split at e
                · have hf2 : ((setFieldAt st i k1
                      (FVal.v (Val.ref a2))).1 i).fields
                      = (st.1 i).fields ++ [(k1, FVal.v (Val.ref a2))] := by
                    rw [setFieldAt_fields_self]
                    exact setField_eq_append _ _ _ hk1K
                  exact shapeLoop_keys_aux recurse tl ih _ _ i src st' k1 _
                    (LoopPres.set st i k1 _) hf2 e hi hsrc hndK hk1K hk1R
                    hndR hdisj'
                · simp only [allocObj] at e
                  have hf2 : ((setFieldAt
                      ((hset st.1 st.2
                        { fnKind := bindFn (st.1 a2).fnKind src },
                          st.2 + 1))
                      i k1 (FVal.v (Val.ref st.2))).1 i).fields
                      = (st.1 i).fields ++ [(k1, FVal.v (Val.ref st.2))] := by
                    rw [setFieldAt_fields_self]
                    show setField ((hset st.1 st.2 _) i).fields k1 _ = _
                    rw [hset_other _ _ _ _ hii]
                    exact setField_eq_append _ _ _ hk1K
                  exact shapeLoop_keys_aux recurse tl ih _ _ i src st' k1 _
                    (((StPres.alloc st _).toLoop i).lcomp
                      (LoopPres.set _ i k1 _))
                    hf2 e hi hsrc hndK hk1K hk1R hndR hdisj'
              · have hf2 : ((setFieldAt st i k1 (FVal.v value)).1 i).fields
                    = (st.1 i).fields ++ [(k1, FVal.v value)] := by
                  rw [setFieldAt_fields_self]
                  exact setField_eq_append _ _ _ hk1K
                exact shapeLoop_keys_aux recurse tl ih _ _ i src st' k1 _
                  (LoopPres.set st i k1 _) hf2 e hi hsrc hndK hk1K hk1R
                  hndR hdisj'

/-! ## Decomposing a completed `fromShape` call -/

theorem fromShape_run (n : Nat) (st : St) (src : Val)
    (d : List (String × FieldTy)) (mf : Bool) (st' : St) (v : Val)
    (e : fromShape (n + 1) st src (.nested d) mf = some (.ok (st', v))) :
    ∃ st2, shapeLoop (fromShape n) ((hset st.1 st.2 {}, st.2 + 1)) st.2 src d
        = some (.ok st2) ∧ v = .ref st.2 ∧
      ((mf = true ∧ st' = st2) ∨
       (mf = false ∧ ∃ h3, deepFreeze n st2.1 (.ref st.2)
          = some (.ok (h3, .ref st.2)) ∧ st' = ((h3, st2.2)))) := by
  rw [fromShape] at e
  simp only [fromShapeStep, allocObj] at e
  split at e
  · simp at e
  · simp at e
  · rename_i st2 hsl
    refine ⟨st2, hsl, ?_⟩
    cases mf with
    | true =>
        simp at e
        obtain ⟨h1, h2⟩ := e
        subst h1
        subst h2
        exact ⟨Eq.refl _, Or.inl ⟨Eq.refl _, Eq.refl _⟩⟩
    | false =>
        simp only [Bool.false_eq_true, if_false] at e
        split at e
        · simp at e
        · simp at e
        · rename_i h3 rv hdf
          simp at e
          obtain ⟨h1, h2⟩ := e
          have hrv : rv = .ref st.2 := deepFreeze_ok_val n st2.1 _ _ hdf
          subst hrv
          subst h1
          subst h2
          exact ⟨Eq.refl _, Or.inr ⟨Eq.refl _, h3, hdf, Eq.refl _⟩⟩

theorem entry_srcBelow (st : St) (src : Val)
    (hsrc : ∀ a, src = .ref a → a < st.2) :
    SrcBelow ((hset st.1 st.2 {}, st.2 + 1)) st.2 src :=
  fun a ha => ⟨Nat.lt_succ_of_lt (hsrc a ha), Nat.ne_of_lt (hsrc a ha)⟩

theorem entry_readD (st : St) (src : Val)
    (hsrc : ∀ a, src = .ref a → a < st.2) (k : String) :
    readD (hset st.1 st.2 {}) src k = readD st.1 src k :=
  readD_congr _ _ _ _ (fun a ha => by
    rw [hset_other _ _ _ _ (Nat.ne_of_lt (hsrc a ha))])

theorem entry_fields (st : St) : ((hset st.1 st.2 {}) st.2).fields = [] := by
  simp [hset]

theorem entry_obj (st : St) (a : Nat) (ha : a < st.2) :
    (hset st.1 st.2 ({} : Obj)) a = st.1 a :=
  hset_other _ _ _ _ (Nat.ne_of_lt ha)

/-! ## Claim theorems about `fromShape` -/

/-- C2: a completed `fromShape(S, D)` call returns the freshly built
instance, whose keys are exactly the declared fields that are installed —
every reshape-slot field, and every other declared field whose source value
is defined — in declaration order; in particular the instance has no key
outside the declared field set, whatever extra keys the source has. -/
theorem fromShape_keys_spec (n : Nat) (st : St) (src : Val)
    (d : List (String × FieldTy)) (mf : Bool) (st' : St) (v : Val)
    (e : fromShape n st src (.nested d) mf = some (.ok (st', v)))
    (hsrc : ∀ a, src = .ref a → a < st.2)
    (hnd : (d.map Prod.fst).Nodup) :
    v = .ref st.2 ∧
    ((st'.1 st.2).fields.map Prod.fst)
      = ((d.filter (installs st.1 src)).map Prod.fst) ∧
    ∀ k, k ∈ ((st'.1 st.2).fields.map Prod.fst) → k ∈ d.map Prod.fst := by
  cases n with
  | zero => simp [fromShape] at e
  | succ n =>
      obtain ⟨st2, hsl, hv, hrest⟩ := fromShape_run n st src d mf st' v e
      have hkeys := shapeLoop_keys (fromShape n)
        (fun st src pt mf st' v hv =>
          (fromShape_pres n st src pt mf st' v hv).1)
        d _ st.2 src st2 hsl (Nat.lt_succ_self _)
        (entry_srcBelow st src hsrc)
        (by simpa [entry_fields] using hnd)
      rw [entry_fields] at hkeys
      simp only [List.map_nil, List.nil_append] at hkeys
      have hinst : d.filter (installs (hset st.1 st.2 {}) src)
          = d.filter (installs st.1 src) := by
        apply List.filter_congr
        intro kt _
        unfold installs
        rw [entry_readD st src hsrc kt.1]
      rw [hinst] at hkeys
      have hfields : (st'.1 st.2).fields = (st2.1 st.2).fields := by
        rcases hrest with ⟨_, hst⟩ | ⟨_, h3, hdf, hst⟩
        · rw [hst]
        · subst hst
          exact ((deepFreeze_pres n st2.1 _ _ hdf) st.2).1
      refine ⟨hv, ?_, ?_⟩
      · rw [hfields]
        exact hkeys
      · intro k hk
        rw [hfields, hkeys] at hk
        obtain ⟨kt, hktmem, hkt⟩ := List.mem_map.mp hk
        exact List.mem_map.mpr ⟨kt, List.mem_of_mem_filter hktmem, hkt⟩

/-- C6 amended: the recursive call for a nested shape declaration passes no
options, so the nested sub-instance is deep-frozen whether or not the outer
call is mutable. -/
theorem fromShape_nested_frozen (n : Nat) (st : St) (src : Val)
    (d : List (String × FieldTy)) (mf : Bool) (st' : St) (v : Val)
    (k : String) (d2 : List (String × FieldTy)) (w : Val)
    (e : fromShape n st src (.nested d) mf = some (.ok (st', v)))
    (hsrc : ∀ a, src = .ref a → a < st.2)
    (hnd : (d.map Prod.fst).Nodup)
    (hmem : (k, FieldTy.nested d2) ∈ d)
    (hre : readD st.1 src k = .ok w) (hw : w ≠ .prim .undefined) :
    ∃ j, lookupField ((st'.1 st.2).fields) k = some (.v (.ref j)) ∧
      (st'.1 j).frozen = true := by
  cases n with
  | zero => simp [fromShape] at e
  | succ n =>
      obtain ⟨st2, hsl, hv, hrest⟩ := fromShape_run n st src d mf st' v e
      have hrec : ∀ st src pt mf st' v,
          fromShape n st src pt mf = some (.ok (st', v)) → StPres st st' :=
        fun st src pt mf st' v hv =>
          (fromShape_pres n st src pt mf st' v hv).1
      have hrecF : ∀ st src d2 st' v,
          fromShape n st src (.nested d2) false = some (.ok (st', v)) →
          v = .ref st.2 ∧ (st'.1 st.2).frozen = true ∧ st.2 < st'.2 :=
        fun st src d2 st' v hv =>
          ⟨(fromShape_ref_frozen n st src _ st' v hv).1,
           (fromShape_ref_frozen n st src _ st' v hv).2,
           fromShape_next n st src _ false st' v hv⟩
      obtain ⟨j, hlook, hfz⟩ := shapeLoop_install_nested (fromShape n) hrec
        hrecF d _ st.2 src st2 hsl (Nat.lt_succ_self _)
        (entry_srcBelow st src hsrc) k d2 w hmem hnd
        ((entry_readD st src hsrc k).trans hre) hw
      rcases hrest with ⟨_, hst⟩ | ⟨_, h3, hdf, hst⟩
      · subst hst
        exact ⟨j, hlook, hfz⟩
      · subst hst
        refine ⟨j, ?_, ?_⟩
        · rw [show (((h3, st2.2) : St).1 st.2).fields = (h3 st.2).fields
            from rfl]
          rw [((deepFreeze_pres n st2.1 _ _ hdf) st.2).1]
          exact hlook
        · exact ((deepFreeze_pres n st2.1 _ _ hdf) j).2.2 hfz

/-- C8: a declared plain field whose source value is a function is
installed re-bound to the source, so calling the installed field with no
receiver gives the same result as calling the original field as a method of
the source object. -/
theorem fromShape_binding (n : Nat) (st : St) (src : Val)
    (d : List (String × FieldTy)) (mf : Bool) (st' : St) (v : Val)
    (k : String) (ma : Nat) (code : Val → List Val → Val) (bt : Option Val)
    (e : fromShape n st src (.nested d) mf = some (.ok (st', v)))
    (hsrc : ∀ a, src = .ref a → a < st.2)
    (hnd : (d.map Prod.fst).Nodup)
    (hmem : (k, FieldTy.plain) ∈ d)
    (hre : readD st.1 src k = .ok (.ref ma))
    (hma : ma < st.2)
    (hfk : (st.1 ma).fnKind = .fn code bt) :
    ∃ b, lookupField ((st'.1 st.2).fields) k = some (.v (.ref b)) ∧
      ∀ args, callWith st'.1 (.ref b) (.prim .undefined) args
          = callWith st'.1 (.ref ma) src args ∧
        callWith st'.1 (.ref ma) src args
          = some (code (bt.getD src) args) := by
  cases n with
  | zero => simp [fromShape] at e
  | succ n =>
      obtain ⟨st2, hsl, hv, hrest⟩ := fromShape_run n st src d mf st' v e
      have hrec : ∀ st src pt mf st' v,
          fromShape n st src pt mf = some (.ok (st', v)) → StPres st st' :=
        fun st src pt mf st' v hv =>
          (fromShape_pres n st src pt mf st' v hv).1
      have hmane : ma ≠ st.2 := Nat.ne_of_lt hma
      obtain ⟨b, hlook, hbfk⟩ := shapeLoop_install_bound (fromShape n) hrec
        d _ st.2 src st2 hsl (Nat.lt_succ_self _)
        (entry_srcBelow st src hsrc) k ma code bt hmem hnd
        ((entry_readD st src hsrc k).trans hre)
        (Nat.lt_succ_of_lt hma) hmane
        (by
          show ((hset st.1 st.2 ({} : Obj)) ma).fnKind = _
          rw [entry_obj st ma hma]
          exact hfk)
      have lp : LoopPres st.2 ((hset st.1 st.2 {}, st.2 + 1)) st2 :=
        shapeLoop_pres (fromShape n) hrec d _ st.2 src st2 hsl
      have hmafk2 : (st2.1 ma).fnKind = .fn code bt := by
        rw [((lp.2 ma (Nat.lt_succ_of_lt hma)).2 hmane).2]
        show ((hset st.1 st.2 ({} : Obj)) ma).fnKind = _
        rw [entry_obj st ma hma]
        exact hfk
      rcases hrest with ⟨_, hst⟩ | ⟨_, h3, hdf, hst⟩
      · subst hst
        refine ⟨b, hlook, fun args => ?_⟩
        constructor
        · simp [callWith, hbfk, hmafk2]
        · simp [callWith, hmafk2]
      · subst hst
        have hp := deepFreeze_pres n st2.1 _ _ hdf
        have hbfk3 : (h3 b).fnKind = .fn code (some (bt.getD src)) := by
          rw [(hp b).2.1]
          exact hbfk
        have hmafk3 : (h3 ma).fnKind = .fn code bt := by
          rw [(hp ma).2.1]
          exact hmafk2
        refine ⟨b, ?_, fun args => ?_⟩
        · rw [show (((h3, st2.2) : St).1 st.2).fields = (h3 st.2).fields
            from rfl]
          rw [(hp st.2).1]
          exact hlook
        constructor
        · simp [callWith, hbfk3, hmafk3]
        · simp [callWith, hmafk3]

/-- C10 amended: a completed `fromShape(S, D)` call without `mutable`
freezes, as a side effect, the source value of every declared plain field
that is a non-function object: the instance shares that object by reference
and the final deep freeze reaches it through the instance. -/
theorem fromShape_freezes_shared (n : Nat) (st : St) (src : Val)
    (d : List (String × FieldTy)) (st' : St) (v : Val) (k : String) (a : Nat)
    (e : fromShape n st src (.nested d) false = some (.ok (st', v)))
    (hsrc : ∀ x, src = .ref x → x < st.2)
    (hnd : (d.map Prod.fst).Nodup)
    (hmem : (k, FieldTy.plain) ∈ d)
    (hre : readD st.1 src k = .ok (.ref a))
    (ha : a < st.2)
    (hfk : (st.1 a).fnKind = .notFn) :
    (st'.1 a).frozen = true := by
  cases n with
  | zero => simp [fromShape] at e
  | succ n =>
      obtain ⟨st2, hsl, hv, hrest⟩ := fromShape_run n st src d false st' v e
      have hrec : ∀ st src pt mf st' v,
          fromShape n st src pt mf = some (.ok (st', v)) → StPres st st' :=
        fun st src pt mf st' v hv =>
          (fromShape_pres n st src pt mf st' v hv).1
      have hlook := shapeLoop_install_plain (fromShape n) hrec
        d _ st.2 src st2 hsl (Nat.lt_succ_self _)
        (entry_srcBelow st src hsrc) k (.ref a) hmem hnd
        ((entry_readD st src hsrc k).trans hre) (by simp)
        (by
          intro x hx
          injection hx with hxx
          subst hxx
          refine ⟨Nat.lt_succ_of_lt ha, Nat.ne_of_lt ha, ?_⟩
          show ((hset st.1 st.2 ({} : Obj)) a).fnKind = _
          rw [entry_obj st a ha]
          exact hfk)
      rcases hrest with ⟨hmt, _⟩ | ⟨_, h3, hdf, hst⟩
      · cases hmt
      · subst hst
        exact deepFreeze_field_frozen n st2.1 st.2 _ hdf k a
          (lookupField_mem _ _ _ hlook)

/-! ## Divergence on cyclic data (no visited set in the source) -/

theorem deepFreeze_cyclic_none :
    ∀ n, deepFreeze n cyclicHeap (.ref 0) = none := by
  intro n
  induction n with
  | zero => rfl
  | succ n ihn =>
      cases n with
      | zero => rfl
      | succ m =>
          rw [deepFreeze]
          simp only [deepFreezeStep]
          have hfields : (cyclicHeap 0).fields
              = [("answer", FVal.v (.prim (.num 42))),
                 ("recursive", FVal.v (.ref 0))] := rfl
          have h42 : deepFreeze (m + 1) cyclicHeap (.prim (.num 42))
              = some (.ok (cyclicHeap, .prim (.num 42))) := rfl
          rw [hfields]
          simp [freezeLoop, h42, ihn]

theorem checkFrozen_cyclic_none :
    ∀ n p c, checkFrozen n cyclicFrozenHeap (.ref 0) p c = none := by
  intro n
  induction n with
  | zero => intro p c; rfl
  | succ n ihn =>
      intro p c
      cases n with
      | zero => rfl
      | succ m =>
          rw [checkFrozen]
          simp only [checkFrozenStep]
          rw [if_neg (by simp [cyclicFrozenHeap])]
          have hfields : (cyclicFrozenHeap 0).fields
              = [("answer", FVal.v (.prim (.num 42))),
                 ("recursive", FVal.v (.ref 0))] := rfl
          have h42 : checkFrozen (m + 1) cyclicFrozenHeap
              (.prim (.num 42)) (p ++ "." ++ "answer") c = some none := rfl
          rw [hfields]
          simp [frozenLoop, h42, ihn]

/-- C3: contrary to the spec and to the test of this repository "deeply
freezes recursive objects", the source tracks no visited references: on the
self-referential object `obj = {answer: 42}; obj.recursive = obj`, both
`deepFreeze` and the deep-frozen check of the `frozen` validator recurse
without bound — for every amount of fuel the embedded computation fails to
return (in the real runtime, the stack overflows). -/
theorem cycle_divergence_spec :
    (∀ n, deepFreeze n cyclicHeap (.ref 0) = none) ∧
    (∀ n p c, checkFrozen n cyclicFrozenHeap (.ref 0) p c = none) :=
  ⟨deepFreeze_cyclic_none, checkFrozen_cyclic_none⟩

/-! ## Remaining claim theorems, counterexamples and witnesses -/

/-- C4: contrary to the spec and to the tests "ignores non-accessible
properties" (deepFreeze) and "ignores non-accessible properties when
checking immutability" (the `frozen` validator), the source has no
try/catch around property reads: on `{answer: 42}` with a `badWolf`
accessor throwing an error with message `bad wolf`, `deepFreeze` propagates the
exception to its caller, and the `frozen` validator reports the thrown
`bad wolf` error as the validation failure instead of ignoring the
property. -/
theorem getter_throw_not_swallowed :
    deepFreeze 3 getterHeap (.ref 0)
      = some (.error (.raised "bad wolf")) ∧
    frozenValidator 3 (fun _ _ _ _ => none) getterFrozenHeap
        [("api", .ref 0)] "api" "TestComponent"
      = some (some (.raised "bad wolf")) :=
  ⟨rfl, rfl⟩

/-- C5: evaluating the source at the failing input: `o1` is built mutable
(`{mutable: true}`, instance at address 1) and carries the reshape
capability (address 2) closing over the instance itself; invoking it —
`fromShape.bind(null, instance)` called with no options — deep-freezes the
derived object (address 3) instead of defaulting to the mutability of
`o1`, as the spec and the `addReshape` tests of the repository require. -/
theorem reshape_default_always_freezes :
    fromShape 5 ((reshapeSrcHeap, 1)) (.ref 0) reshapeDecl true
      = some (.ok (mutableInstSt, .ref 1)) ∧
    (mutableInstSt.1 1).frozen = false ∧
    lookupField ((mutableInstSt.1 1).fields) "reshape"
      = some (.v (.ref 2)) ∧
    (mutableInstSt.1 2).fnKind = .reshapeFn 1 ∧
    callReshape 5 mutableInstSt (.ref 2) reshapeDecl2
      = some (.ok (reshapedSt, .ref 3)) ∧
    (reshapedSt.1 3).frozen = true :=
  ⟨rfl, rfl, rfl, rfl, rfl, rfl⟩

/-- C1: for a truthy candidate object that passes the wrapped structural
check, the `shape` validator returns `null` when every own property name of
the candidate is declared, and otherwise an error naming the property, the
owner component and the list of undeclared own property names. -/
theorem shape_extraneous_spec (shapeFields : List String)
    (wrapped : Validator) (h : Heap) (props : Props)
    (propName comp : String) (a : Nat)
    (hpv : propsGet props propName = .ref a)
    (hwr : wrapped h props propName comp = none) :
    ((((h a).fields.map Prod.fst).filter
        (fun f => !(shapeFields.contains f))) ≠ [] →
      shape shapeFields wrapped h props propName comp
        = some (.extraneous propName comp
            (((h a).fields.map Prod.fst).filter
              (fun f => !(shapeFields.contains f))))) ∧
    ((((h a).fields.map Prod.fst).filter
        (fun f => !(shapeFields.contains f))) = [] →
      shape shapeFields wrapped h props propName comp = none) := by
  constructor
  · intro hne
    have hE : ((((h a).fields.map Prod.fst).filter
        (fun f => !(shapeFields.contains f)))).isEmpty = false := by
      cases hl : (((h a).fields.map Prod.fst).filter
          (fun f => !(shapeFields.contains f))) with
      | nil => exact absurd hl hne
      | cons x xs => rfl
    simp [shape, hpv, hwr, truthy, ownNames, hE]
    obtain ⟨x, hx⟩ := List.exists_mem_of_ne_nil _ hne
    obtain ⟨hxm, hxp⟩ := List.mem_filter.mp hx
    obtain ⟨ky, hky, hkx⟩ := List.mem_map.mp hxm
    refine ⟨x, ⟨ky.2, ?_⟩, ?_⟩
    · rw [← hkx]
      simpa using hky
    · simpa using hxp
  · intro heq
    simp [shape, hpv, hwr, truthy, ownNames, heq]
    intro x y hxy
    have hx : x ∈ (h a).fields.map Prod.fst :=
      List.mem_map.mpr ⟨(x, y), hxy, rfl⟩
    have hnp := List.filter_eq_nil_iff.mp heq x hx
    simpa using hnp

/-- C1 witness: the spec scenario — shape `{field1, field2}`, candidate
`{field1: [], field2: "x", field3: "y"}` — yields the error naming
`field3`. -/
theorem shape_extraneous_witness :
    shape ["field1", "field2"] (fun _ _ _ _ => none) extraneousHeap
        [("api", .ref 0)] "api" "TestComponent"
      = some (.extraneous "api" "TestComponent" ["field3"]) :=
  (shape_extraneous_spec ["field1", "field2"] (fun _ _ _ _ => none)
    extraneousHeap [("api", .ref 0)] "api" "TestComponent" 0 rfl rfl).1
    (by decide)

/-- C2 witness: `fromShape({field1: 42, field3: false},
shape({field1, field2}))` produces an instance whose only key is `field1`
(the undeclared `field3` is projected away, the undefined `field2` is
omitted). -/
theorem fromShape_keys_witness :
    ((projRunSt.1 1).fields.map Prod.fst) = ["field1"] :=
  (fromShape_keys_spec 5 ((projSrcHeap, 1)) (.ref 0)
    [("field1", .plain), ("field2", .plain)] false projRunSt (.ref 1)
    rfl (fun a ha => by injection ha with h2; omega) (by decide)).2.1

/-- C6 counterexample: with `{mutable: true}` on the outer call, the nested
sub-instance (address 3) is nonetheless returned deep-frozen while the
outer instance (address 2) is mutable, contradicting the claim that the
nested result inherits the outer mutability option. -/
theorem nested_frozen_despite_mutable :
    fromShape 6 ((nestedSrcHeap, 2)) (.ref 0) (.nested nestedDecl) true
      = some (.ok (nestedRunSt, .ref 2)) ∧
    (nestedRunSt.1 2).frozen = false ∧
    lookupField ((nestedRunSt.1 2).fields) "n" = some (.v (.ref 3)) ∧
    (nestedRunSt.1 3).frozen = true :=
  ⟨rfl, rfl, rfl, rfl⟩

/-- C6 witness for the amended claim at the same scenario. -/
theorem fromShape_nested_frozen_witness :
    ∃ j, lookupField ((nestedRunSt.1 2).fields) "n" = some (.v (.ref j)) ∧
      (nestedRunSt.1 j).frozen = true :=
  fromShape_nested_frozen 6 ((nestedSrcHeap, 2)) (.ref 0) nestedDecl true
    nestedRunSt (.ref 2) "n" [("a", .plain)] (.ref 1) rfl
    (fun a ha => by injection ha with h2; omega) (by decide)
    (List.mem_singleton.mpr rfl) rfl (by decide)

/-- C7 amended: `deepFreeze` returns its argument (the same reference)
whenever it returns; it silently no-ops on numbers, strings and booleans;
but on `null` and `undefined` it throws a TypeError
(`Object.getOwnPropertyNames` rejects them). -/
theorem deepFreeze_value_spec :
    (∀ (n : Nat) (h : Heap) (v : Val) (r : Heap × Val),
      deepFreeze n h v = some (.ok r) → r.2 = v) ∧
    (∀ (n : Nat) (h : Heap) (p : Prim), p ≠ .null → p ≠ .undefined →
      deepFreeze (n + 1) h (.prim p) = some (.ok (h, .prim p))) ∧
    (∀ (n : Nat) (h : Heap),
      deepFreeze (n + 1) h (.prim .null) = some (.error .typeError) ∧
      deepFreeze (n + 1) h (.prim .undefined)
        = some (.error .typeError)) := by
  refine ⟨deepFreeze_ok_val, ?_, fun n h => ⟨rfl, rfl⟩⟩
  intro n h p hn hu
  cases p with
  | num m => rfl
  | str st => rfl
  | bool b => rfl
  | null => exact absurd (Eq.refl _) hn
  | undefined => exact absurd (Eq.refl _) hu

/-- C7 counterexample: `deepFreeze(null)` does not silently no-op — it
throws a TypeError. -/
theorem deepFreeze_null_throws :
    deepFreeze 1 emptyHeap (.prim .null) = some (.error .typeError) := rfl

/-- C7 witness: a boolean is returned unchanged without error (and is the
same value that went in), and `undefined` throws, at a concrete heap. -/
theorem deepFreeze_value_witness :
    deepFreeze 1 emptyHeap (.prim (.bool true))
      = some (.ok (emptyHeap, .prim (.bool true))) ∧
    ((emptyHeap, Val.prim (.bool true)) : Heap × Val).2
      = .prim (.bool true) ∧
    deepFreeze 1 emptyHeap (.prim .undefined)
      = some (.error .typeError) :=
  ⟨deepFreeze_value_spec.2.1 0 emptyHeap (.bool true) (by decide)
    (by decide),
   deepFreeze_value_spec.1 1 emptyHeap (.prim (.bool true))
     ((emptyHeap, .prim (.bool true))) rfl,
   (deepFreeze_value_spec.2.2 0 emptyHeap).2⟩

/-- C9 amended: when the deep-frozen check reports a non-frozen node, the
reported component is that of the caller and the reported path extends the
root property name to a node that is not frozen, every node on the way
being frozen (the traversal throws at the first failure, so a single node
is reported); the `frozen` wrapper catches the throw and returns the error
to the host.  (When the traversal instead trips on an `undefined`-valued
property it returns a TypeError, and on a cyclic graph it does not
terminate — see the counterexample.) -/
theorem frozen_path_spec :
    (∀ (n : Nat) (h : Heap) (v : Val) (p c q c' : String),
      checkFrozen n h v p c = some (some (.notFrozen q c')) →
      c' = c ∧ UnfrozenAt h v p q) ∧
    (∀ (n : Nat) (inner : Validator) (h : Heap) (props : Props)
      (propName comp : String) (err : JsErr),
      truthy (propsGet props propName) = true →
      checkFrozen n h (propsGet props propName) propName comp
        = some (some err) →
      frozenValidator n inner h props propName comp = some (some err)) :=
  ⟨checkFrozen_path, fun n inner h props propName comp err h1 h2 =>
    frozenValidator_returns n inner h props propName comp err h1 h2⟩

/-- C9 counterexample: a truthy, not deeply frozen candidate (its `b`
property is a non-frozen object) for which the `frozen` validator returns a
TypeError — produced by reading the `undefined`-valued property `a` — and
not an error naming the dotted path of the first non-frozen node. -/
theorem frozen_undefined_typeerror :
    frozenValidator 5 (fun _ _ _ _ => none) undefFieldHeap
        [("api", .ref 0)] "api" "TestComponent"
      = some (some .typeError) ∧
    (undefFieldHeap 1).frozen = false ∧
    truthy (.ref 0) = true ∧
    JsErr.message .typeError
      = "TypeError: Cannot convert undefined or null to object" :=
  ⟨rfl, rfl, rfl, rfl⟩

/-- C9 witness: on a frozen candidate whose `field1` is not frozen, the
check reports component `TestComponent` and path `api.field1`, a path to a
genuinely non-frozen node. -/
theorem frozen_path_witness :
    ("TestComponent" = "TestComponent" ∧
      UnfrozenAt notFrozenHeap (.ref 0) "api" "api.field1") ∧
    frozenValidator 3 (fun _ _ _ _ => none) notFrozenHeap
        [("api", .ref 0)] "api" "TestComponent"
      = some (some (.notFrozen "api.field1" "TestComponent")) :=
  ⟨frozen_path_spec.1 3 notFrozenHeap (.ref 0) "api" "TestComponent"
    "api.field1" "TestComponent" rfl,
   frozen_path_spec.2 3 (fun _ _ _ _ => none) notFrozenHeap
     [("api", .ref 0)] "api" "TestComponent"
     (.notFrozen "api.field1" "TestComponent") rfl rfl⟩

/-- C8 witness: the method returning its own receiver, installed by
`fromShape`, answers the source object when called with no receiver — the
same as calling it as a method of the source. -/
theorem fromShape_binding_witness :
    ∃ b, lookupField ((bindRunSt.1 2).fields) "fullName"
        = some (.v (.ref b)) ∧
      ∀ args, callWith bindRunSt.1 (.ref b) (.prim .undefined) args
          = callWith bindRunSt.1 (.ref 1) (.ref 0) args ∧
        callWith bindRunSt.1 (.ref 1) (.ref 0) args = some (.ref 0) :=
  fromShape_binding 5 ((bindSrcHeap, 2)) (.ref 0) [("fullName", .plain)]
    false bindRunSt (.ref 2) "fullName" 1 (fun thisVal _ => thisVal) none
    rfl (fun a ha => by injection ha with h2; omega) (by decide)
    (List.mem_singleton.mpr rfl) rfl (by decide) rfl

/-- C10 counterexample: with source `{a: o, b: o}` and shape `{a}`, the
undeclared field `b` is not untouched: the object it shares with the
declared field `a` is frozen by the call (the source object itself stays
unfrozen here). -/
theorem alias_frozen_not_untouched :
    fromShape 5 ((aliasHeap, 3)) (.ref 0) (.nested [("a", .plain)]) false
      = some (.ok (aliasRunSt, .ref 3)) ∧
    lookupField ((aliasHeap 0).fields) "b" = some (.v (.ref 2)) ∧
    (["a"] : List String).contains "b" = false ∧
    (aliasRunSt.1 2).frozen = true ∧
    (aliasRunSt.1 0).frozen = false :=
  ⟨rfl, rfl, rfl, rfl, rfl⟩

/-- C10 witness for the amended claim at the aliasing scenario. -/
theorem fromShape_freezes_shared_witness :
    (aliasRunSt.1 2).frozen = true :=
  fromShape_freezes_shared 5 ((aliasHeap, 3)) (.ref 0) [("a", .plain)]
    aliasRunSt (.ref 3) "a" 2 rfl
    (fun x hx => by injection hx with h2; omega) (by decide)
    (List.mem_singleton.mpr rfl) rfl (by decide) rfl

end Shapeup
